import Mathlib

/-!
Verification development for the `code_context` repository: a shallow
embedding, in Lean, of the file-selection / content-cleaning / analysis /
caching pipeline (src/processors and src/utils), together with theorems
settling the behavioural claims about it.

Strings are modelled at the `List Char` level where character-by-character
scanning matters (the JavaScript comment stripper), and at the `String`
level elsewhere.  Machine-level externals (the `ast` parser, the `radon`
metrics library, SHA-256, Python's per-process salted `hash` builtin,
filesystem and pickle I/O outcomes) enter the model as explicit parameters
or per-file outcome fields, so that every pipeline function is a total,
executable Lean definition.
-/

namespace CodeContext

/-! ## Generic character-list utilities -/

/-- Does the first list occur as a prefix of the second?  (Plain recursion,
used by the substring test below.) -/
def isPre : List Char → List Char → Bool
  | [], _ => true
  | _ :: _, [] => false
  | p :: ps, c :: cs => p == c && isPre ps cs

/-- Does `pat` occur as a contiguous substring of the second list?  Mirrors
Python's `pat in s` on strings. -/
def hasSub (pat : List Char) : List Char → Bool
  | [] => isPre pat []
  | c :: cs => isPre pat (c :: cs) || hasSub pat cs

/-- String-level wrapper for the substring test: `hasSubStr s pat` models
Python's `pat in s`. -/
def hasSubStr (s pat : String) : Bool := hasSub pat.data s.data

/-- `str.lower` on one character (ASCII range, which covers every tag and
extension the pipeline compares). -/
def pyLowerChar (c : Char) : Char :=
  if 65 ≤ c.toNat ∧ c.toNat ≤ 90 then Char.ofNat (c.toNat + 32) else c

/-- `str.lower`. -/
def pyLower (s : String) : String := ⟨s.data.map pyLowerChar⟩

/-- `str.startswith`. -/
def pyStartsWith (s pre : String) : Bool := isPre pre.data s.data

/-- `len(s.encode('utf-8'))`: the UTF-8 byte length of a string. -/
def utf8Len (s : String) : Nat :=
  (s.data.map (fun c =>
    if c.toNat < 128 then 1 else if c.toNat < 2048 then 2
    else if c.toNat < 65536 then 3 else 4)).sum

/-- Join path components with `/` (the rendering of a relative
`pathlib.Path` as a string). -/
def joinPath (parts : List String) : String :=
  ⟨List.intercalate ['/'] (parts.map String.data)⟩

/-! ## The JavaScript analyzer's cleaning pass
(`JavaScriptAnalyzer.clean_content`, src/processors/code_analyzer.py).

The Python code performs three steps on the whole text:
1. `re.sub(r'//.*$', '', content, flags=re.MULTILINE)` — per line, drop
   everything from the first `//` to the end of that line;
2. `re.sub(r'/\*[\s\S]*?\*/', '', content)` — in one left-to-right scan,
   drop every non-greedy `/* ... */` block (an unclosed `/*` is left as is,
   and nothing after it can match because no `*/` exists after it);
3. `'\n'.join(line for line in content.splitlines() if line.strip())` —
   drop blank (whitespace-only) lines and rejoin with `\n`.

The embedding uses the LF terminator for line structure; the exotic
terminators recognised by `str.splitlines` only ever remove additional
blank pieces, which the blank-line filter of step 3 removes anyway. -/

/-- Cut one line (a `'\n'`-free character list) at its first `//`,
dropping the rest: the per-line effect of `re.sub(r'//.*$', ...)`. -/
def cutOneLine : List Char → List Char
  | '/' :: '/' :: _ => []
  | c :: rest => c :: cutOneLine rest
  | [] => []

/-- Prepend a character to the first line of a line list. -/
def consHead (c : Char) : List (List Char) → List (List Char)
  | [] => [[c]]
  | l :: ls => (c :: l) :: ls

/-- Split a character list into its `'\n'`-separated lines. -/
def splitNl : List Char → List (List Char)
  | [] => [[]]
  | '\n' :: rest => [] :: splitNl rest
  | c :: rest => consHead c (splitNl rest)

/-- Join lines with `'\n'` separators (`'\n'.join(...)`). -/
def joinNl : List (List Char) → List Char
  | [] => []
  | [l] => l
  | l :: ls => l ++ '\n' :: joinNl ls

/-- Step 1 of the JavaScript cleaner: line-comment removal over the whole
text, applied per line. -/
def lineStep (s : List Char) : List Char := joinNl ((splitNl s).map cutOneLine)

/-- Locate the first `*/` in the list and return the suffix after it
(`none` when no `*/` occurs): the non-greedy search for the block-comment
terminator. -/
def splitAtClose : List Char → Option (List Char)
  | '*' :: '/' :: rest => some rest
  | _ :: rest => splitAtClose rest
  | [] => none

/-- Step 2 of the JavaScript cleaner: remove every (non-greedy) `/* ... */`
block in one left-to-right scan; an unclosed `/*` is emitted unchanged
together with everything after it, since no later `*/` exists to close any
later `/*` either. -/
def removeBlock : List Char → List Char
  | '/' :: '*' :: rest =>
    match h : splitAtClose rest with
    | some rest' => removeBlock rest'
    | none => '/' :: '*' :: rest
  | c :: rest => c :: removeBlock rest
  | [] => []
termination_by l => l.length
decreasing_by
  · have key : ∀ l r, splitAtClose l = some r → r.length + 2 ≤ l.length := by
      intro l
      induction l using splitAtClose.induct with
      | case1 rest => intro r hh; rw [splitAtClose] at hh; cases hh; simp
      | case2 c rest hne ih =>
        intro r hh
        have hc : splitAtClose (c :: rest) = splitAtClose rest := by
          rw [splitAtClose.eq_def]
          split
          · rename_i heq
            injection heq with h1 h2
            exact (hne _ h1 h2).elim
          · rename_i x xs heq
            injection heq with h1 h2
            rw [h2]
          · rename_i heq
            cases heq
        rw [hc] at hh
        have := ih r hh
        simp only [List.length_cons]
        omega
      | case3 => intro r hh; simp [splitAtClose] at hh
    have := key _ _ h
    simp only [List.length_cons]
    omega
  · simp

/-- Python `str.isspace` for the ASCII whitespace characters that can occur
inside a line (used by `line.strip()` in step 3). -/
def isWS (c : Char) : Bool :=
  c == ' ' || c == '\t' || c == '\r' || c == '\n' ||
  c == Char.ofNat 11 || c == Char.ofNat 12

/-- A blank line: `line.strip()` is empty, i.e. every character is
whitespace. -/
def isBlank (l : List Char) : Bool := l.all isWS

/-- Step 3 of the JavaScript cleaner: drop blank lines and rejoin. -/
def joinNonblank (s : List Char) : List Char :=
  joinNl ((splitNl s).filter (fun l => !isBlank l))

/-- `JavaScriptAnalyzer.clean_content` on character lists: line comments,
then block comments, then blank-line removal. -/
def jsCleanL (s : List Char) : List Char := joinNonblank (removeBlock (lineStep s))

/-- `JavaScriptAnalyzer.clean_content` on strings. -/
def jsCleanContent (s : String) : String := ⟨jsCleanL s.data⟩

/-! Scanning predicates used to state the invariants of the cleaner's
output: absence of adjacent `//`, presence of a `*/`, and absence of any
`/*` that is followed (anywhere later) by a `*/`. -/

/-- No two adjacent characters form `//`. -/
def noDSlash : List Char → Bool
  | '/' :: '/' :: _ => false
  | _ :: rest => noDSlash rest
  | [] => true

/-- Some two adjacent characters form `*/`. -/
def hasClose : List Char → Bool
  | '*' :: '/' :: _ => true
  | _ :: rest => hasClose rest
  | [] => false

/-- Every occurrence of `/*` has no `*/` anywhere after it, so the
block-comment regex finds nothing to remove. -/
def noOpenClose : List Char → Bool
  | '/' :: '*' :: rest => !hasClose rest && noOpenClose rest
  | _ :: rest => noOpenClose rest
  | [] => true

/-! ## The Python analyzer (`PythonAnalyzer`, src/processors/code_analyzer.py)

The `ast` module is external; its parse trees are embedded as `PyStmt`:
the three statement forms the analyzer inspects (`ast.FunctionDef`,
`ast.AsyncFunctionDef`, `ast.ClassDef`) plus a constructor for every other
statement, carrying the nested statements it contains.  Decorator and
base-class expressions are carried in their `ast.unparse`d textual form,
and argument nodes as their `.arg` names, which is all the analyzer reads
from them.  `ast.walk` enumerates every node of the tree; the embedding
collects the same node set in depth-first order (the source's breadth-first
order differs only in list ordering, which no stated property depends on).
The `complexity` entry of a function descriptor (computed by the external
`radon` library) is outside the embedding. -/

inductive PyStmt where
  | funcDef (name : String) (args : List String) (decorators : List String)
      (body : List PyStmt) : PyStmt
  | asyncFuncDef (name : String) (args : List String) (decorators : List String)
      (body : List PyStmt) : PyStmt
  | classDef (name : String) (bases : List String) (decorators : List String)
      (body : List PyStmt) : PyStmt
  | stmt (children : List PyStmt) : PyStmt

/-- `isinstance(node, ast.FunctionDef)`: true only for a plain (non-async)
function definition; in Python, `ast.AsyncFunctionDef` is not a subclass of
`ast.FunctionDef`. -/
def PyStmt.isFunctionDef : PyStmt → Bool
  | .funcDef _ _ _ _ => true
  | _ => false

/-- `isinstance(node, ast.AsyncFunctionDef)`. -/
def PyStmt.isAsyncFunctionDef : PyStmt → Bool
  | .asyncFuncDef _ _ _ _ => true
  | _ => false

mutual

/-- `ast.walk` from a node: the node itself and every node beneath it. -/
def PyStmt.walk : PyStmt → List PyStmt
  | .funcDef n a d b => .funcDef n a d b :: walkList b
  | .asyncFuncDef n a d b => .asyncFuncDef n a d b :: walkList b
  | .classDef n bs d b => .classDef n bs d b :: walkList b
  | .stmt cs => .stmt cs :: walkList cs

/-- `ast.walk` over a statement list. -/
def walkList : List PyStmt → List PyStmt
  | [] => []
  | s :: rest => s.walk ++ walkList rest

end

/-- `ast.walk(tree)` for a parsed module with the given statement list: the
module node itself (never a function or class definition, here a `.stmt`)
followed by everything beneath it. -/
def walkModule (body : List PyStmt) : List PyStmt := (PyStmt.stmt body).walk

/-- One entry of `PythonAnalyzer._analyze_functions`' result. -/
structure FuncInfo where
  name : String
  args : List String
  decorators : List String
  isAsync : Bool
deriving Repr, DecidableEq

/-- One method entry of a class descriptor. -/
structure MethodInfo where
  name : String
  isPrivate : Bool
  isAsync : Bool
deriving Repr, DecidableEq

/-- One entry of `PythonAnalyzer._analyze_classes`' result. -/
structure ClassInfo where
  name : String
  bases : List String
  methods : List MethodInfo
  decorators : List String
deriving Repr, DecidableEq

/-- `PythonAnalyzer._analyze_functions`: walk the whole tree and emit one
descriptor per node that is an `ast.FunctionDef`; the `is_async` flag is
`isinstance(node, ast.AsyncFunctionDef)` evaluated on that same node. -/
def analyzeFunctions (body : List PyStmt) : List FuncInfo :=
  (walkModule body).filterMap fun node =>
    match node with
    | .funcDef n a d b =>
      some { name := n, args := a, decorators := d,
             isAsync := (PyStmt.funcDef n a d b).isAsyncFunctionDef }
    | _ => none

/-- `PythonAnalyzer._analyze_classes`: walk the whole tree and emit one
descriptor per `ast.ClassDef`, whose methods are the direct children of the
class body that are `ast.FunctionDef`s. -/
def analyzeClasses (body : List PyStmt) : List ClassInfo :=
  (walkModule body).filterMap fun node =>
    match node with
    | .classDef n bs d b =>
      some { name := n, bases := bs,
             methods := b.filterMap fun child =>
               match child with
               | .funcDef m _ _ cb =>
                 some { name := m, isPrivate := pyStartsWith m "_",
                        isAsync := (PyStmt.funcDef m [] [] cb).isAsyncFunctionDef }
               | _ => none,
             decorators := d }
    | _ => none

/-- The shape of `analyze_code`'s result that the stated properties refer
to: the success flag, the error message on failure, and the Python
function/class descriptor lists.  The numeric metrics blocks (computed by
the external `radon` library and by regex counting) and the import lists
are not referenced by any stated property and stay outside the embedding. -/
inductive AnalysisOutcome where
  | pyOk (functions : List FuncInfo) (classes : List ClassInfo) : AnalysisOutcome
  | jsOk : AnalysisOutcome
  | err (msg : String) : AnalysisOutcome
deriving Repr, DecidableEq

/-- The `success` field of an analysis result dictionary. -/
def AnalysisOutcome.success : AnalysisOutcome → Bool
  | .err _ => false
  | _ => true

/-- The `functions` list of a successful Python analysis (empty otherwise). -/
def AnalysisOutcome.functions : AnalysisOutcome → List FuncInfo
  | .pyOk fs _ => fs
  | _ => []

/-- The `classes` list of a successful Python analysis (empty otherwise). -/
def AnalysisOutcome.classes : AnalysisOutcome → List ClassInfo
  | .pyOk _ cs => cs
  | _ => []

/-- `PythonAnalyzer.analyze` after a successful `ast.parse`: the descriptor
lists computed from the tree. -/
def pyAnalyzeTree (body : List PyStmt) : AnalysisOutcome :=
  .pyOk (analyzeFunctions body) (analyzeClasses body)

/-! ## The `CodeAnalyzer` registry (src/processors/code_analyzer.py)

`CodeAnalyzer.__init__` registers one analyzer per extension tag; dispatch
lowercases the tag and looks it up.  The Python analyzer's behaviour is a
function of the external `ast` parser, so `analyzeCode`/`cleanContent`
take the Python variant's content-level behaviour (`pyAnalyze`, `pyClean`)
as parameters; the JavaScript variant's cleaning is the concrete
`jsCleanContent` above and its analysis always reports success. -/

inductive AnalyzerKind where
  | python : AnalyzerKind
  | javascript : AnalyzerKind
deriving Repr, DecidableEq

/-- The `self.analyzers` registry built in `CodeAnalyzer.__init__`. -/
def analyzersRegistry : List (String × AnalyzerKind) :=
  [("py", .python), ("js", .javascript), ("jsx", .javascript),
   ("ts", .javascript), ("tsx", .javascript)]

/-- First-match association lookup (Python dict `.get`; keys here are
distinct, and assignment is modelled by consing, so the first match is the
most recent binding). -/
def lookupKey {α : Type} : List (String × α) → String → Option α
  | [], _ => none
  | (k, v) :: rest, key => if k == key then some v else lookupKey rest key

/-- `CodeAnalyzer.get_analyzer`: look up the lowercased file-type tag. -/
def getAnalyzer (fileType : String) : Option AnalyzerKind :=
  lookupKey analyzersRegistry (pyLower fileType)

/-- `CodeAnalyzer.analyze_code`: dispatch on the registry; with no analyzer
registered for the tag, return a failure result carrying the explicit
"Unsupported file type" error rather than raising. -/
def CodeAnalyzer.analyzeCode (pyAnalyze : String → AnalysisOutcome)
    (content fileType : String) : AnalysisOutcome :=
  match getAnalyzer fileType with
  | none => .err ("Unsupported file type: " ++ fileType)
  | some .python => pyAnalyze content
  | some .javascript => .jsOk

/-- `CodeAnalyzer.clean_content`: with no analyzer registered for the tag,
return the content unchanged (silent passthrough). -/
def CodeAnalyzer.cleanContent (pyClean : String → String)
    (content fileType : String) : String :=
  match getAnalyzer fileType with
  | none => content
  | some .python => pyClean content
  | some .javascript => jsCleanContent content

/-! ## Records, hashes and the analysis cache -/

/-- The value stored in a serialized record's `hash` field.
`ContentProcessor` stores Python's builtin `hash(cleaned_content)` — an
`int` — while the other two processors store `calculate_file_hash`'s
hex-digest string, so the field's value space is a sum. -/
inductive HashVal where
  | intHash (n : Int) : HashVal
  | strHash (s : String) : HashVal
deriving Repr, DecidableEq

/-- One processed file's result dictionary, with the field names of the
serialized contract. -/
structure FileRecord where
  path : String
  type : String
  analysis : AnalysisOutcome
  size : Nat
  content : String
  hash : HashVal
deriving Repr, DecidableEq

/-- A durable-layer cache file: either a loadable pickled record, or a
file that exists but whose unpickling raises. -/
inductive DiskEntry where
  | ok (r : FileRecord) : DiskEntry
  | corrupt : DiskEntry
deriving Repr, DecidableEq

/-- `FileAnalysisCache` (src/utils/cache_utils.py): a memory layer plus a
durable layer of one pickle file per digest. -/
structure Cache where
  memory : List (String × FileRecord) := []
  disk : List (String × DiskEntry) := []
deriving Repr, DecidableEq

/-- `FileAnalysisCache.get`: memory first; on miss consult the durable
layer, promote a loadable entry into memory, and treat an unloadable entry
as a miss (the load error is logged and swallowed). -/
def Cache.get (c : Cache) (k : String) : Option FileRecord × Cache :=
  match lookupKey c.memory k with
  | some r => (some r, c)
  | none =>
    match lookupKey c.disk k with
    | some (.ok r) => (some r, { c with memory := (k, r) :: c.memory })
    | some .corrupt => (none, c)
    | none => (none, c)

/-- `FileAnalysisCache.set`: always write the memory layer; the durable
write is best-effort — `diskOk` is the outcome of the pickle dump, and a
failure leaves the durable layer unchanged without failing the caller. -/
def Cache.set (c : Cache) (k : String) (v : FileRecord) (diskOk : Bool) : Cache :=
  { memory := (k, v) :: c.memory,
    disk := if diskOk then (k, .ok v) :: c.disk else c.disk }

/-! ## Configuration, files and the run environment -/

/-- The error classes the per-file pipeline distinguishes: a decode error
(caught specifically by `ContentProcessor`'s read step) and any other
OS-level error (caught by the enclosing handlers). -/
inductive PyErr where
  | unicodeDecodeError : PyErr
  | osError : PyErr
deriving Repr, DecidableEq

/-- `ProcessorConfig` (src/config.py), restricted to the fields the
pipeline reads.  `targetParts` are the path components of the target
directory itself: `ContentProcessor.should_process_file` inspects
`file_path.parts`, which include them. -/
structure Config where
  targetParts : List String
  includedExtensions : List String
  excludedPatterns : List String
  maxFileSize : Nat
  cacheEnabled : Bool
deriving Repr

/-- The defaults installed by `ProcessorConfig.__post_init__` (sets are
modelled as lists; only membership is consulted). -/
def defaultConfig : Config :=
  { targetParts := ["repo"],
    includedExtensions := [".py", ".js", ".jsx", ".ts", ".tsx", ".java",
                           ".cpp", ".c", ".h", ".cs", ".go", ".rb"],
    excludedPatterns := ["node_modules", ".git", "venv", "__pycache__",
                         "dist", "build", ".env", ".pytest_cache"],
    maxFileSize := 1048576,
    cacheEnabled := true }

/-- One filesystem entry under the target directory, carrying the outcomes
of the operations the pipeline performs on it: `parts` are its path
components relative to the target directory, `stat` the size returned by
`stat()`/`os.path.getsize` (or the error they raise), `read` the decoded
text (or the decode/OS error raised while reading), and `raw` its raw
bytes (the input of `calculate_file_hash`). -/
structure SrcFile where
  parts : List String
  isFile : Bool
  stat : Except PyErr Nat
  read : Except PyErr String
  raw : String
deriving Repr

/-- The final path component (`Path.name`). -/
def SrcFile.name (f : SrcFile) : String := f.parts.getLast? |>.getD ""

/-- `Path.suffix`: the extension of the final component, dot included;
empty when the name has no dot after its first character. -/
def pathSuffix (name : String) : String :=
  let cs := name.data
  let pre := cs.reverse.takeWhile (fun c => c != '.')
  if pre.length + 1 < cs.length then ⟨'.' :: pre.reverse⟩ else ""

/-- `suffix.lstrip('.')`: the extension without leading dots, used as the
file-type tag. -/
def extNoDot (s : String) : String := ⟨s.data.dropWhile (fun c => c == '.')⟩

/-- The file's suffix (`Path.suffix` of its name). -/
def SrcFile.suffix (f : SrcFile) : String := pathSuffix f.name

/-- The file-type tag `file_path.suffix.lstrip('.')`. -/
def SrcFile.fileType (f : SrcFile) : String := extNoDot f.suffix

/-- `str(file_path.relative_to(target_dir))`. -/
def SrcFile.relPath (f : SrcFile) : String := joinPath f.parts

/-- `file_path.parts`: the components of the full path, target directory
included. -/
def SrcFile.fullParts (cfg : Config) (f : SrcFile) : List String :=
  cfg.targetParts ++ f.parts

/-- Modelled from the spec: `FileParser.get_file_type`
(the `parsers` package is not part of the sources provided), which the
serialized-shape contract fixes as "extension without leading dot". -/
def specGetFileType (f : SrcFile) : String := extNoDot f.suffix

/-- The run environment: the external functions a run is parameterized by.
`pyHash` is Python's builtin `hash` on strings, which CPython salts with a
per-process key (`PYTHONHASHSEED`), so distinct runs are modelled by
distinct `pyHash` functions; `sha256` is the hex digest computed by
`calculate_file_hash` over raw bytes; `cleanC`/`analyzeC` are
`CodeAnalyzer.clean_content`/`analyze_code` as invoked by the pipeline
(cleaning may raise, which the pipeline's handlers catch; `analyze_code`
returns failure results instead of raising); `diskWriteOk` gives the
outcome of the durable cache write for a digest. -/
structure Env where
  pyHash : String → Int
  sha256 : String → String
  cleanC : String → String → Except PyErr String
  analyzeC : String → String → AnalysisOutcome
  diskWriteOk : String → Bool

/-- The `self.stats` accumulator shared by the processor variants
(`failed_files_info` is kept by the optimized variant; `cache_hits` by the
other two; unused fields stay at their initial value). -/
structure Stats where
  processed : Nat := 0
  skipped : Nat := 0
  failed : Nat := 0
  totalRaw : Nat := 0
  totalCleaned : Nat := 0
  cacheHits : Nat := 0
  totalFiles : Nat := 0
  fileTypes : List (String × Nat) := []
  failedInfo : List (String × String) := []
deriving Repr, DecidableEq

/-- Increment the per-extension counter
(`stats['file_types'][ext] = stats['file_types'].get(ext, 0) + 1`). -/
def bumpType : List (String × Nat) → String → List (String × Nat)
  | [], k => [(k, 1)]
  | (k', n) :: rest, k =>
    if k' == k then (k', n + 1) :: rest else (k', n) :: bumpType rest k

/-- `str(e)` for the modelled error classes (the pipeline only embeds the
message into log/detail strings). -/
def PyErr.msg : PyErr → String
  | .unicodeDecodeError => "UnicodeDecodeError"
  | .osError => "OSError"

/-! ## `ContentProcessor` (src/processors/content_processor.py) -/

/-- `self.ignored_prefixes`. -/
def cpIgnoredPrefixes : List String :=
  [".git", ".cache", "__pycache__", "node_modules", "venv", "dist", "build"]

/-- `self.ignored_extensions`. -/
def cpIgnoredExtensions : List String :=
  [".pyc", ".pyo", ".pyd", ".so", ".dll", ".dylib", ".pickle", ".pkl",
   ".log", ".cache", ".jsonl"]

/-- `ContentProcessor.should_process_file`: regular file, no hidden or
ignored path segment, extension not ignored and on the allow-list, size
within the ceiling, no excluded-pattern substring; any error raised inside
(here: from the `getsize` stat) is caught and yields `False`. -/
def CP.shouldProcessFile (cfg : Config) (f : SrcFile) : Bool :=
  if !f.isFile then false
  else if (SrcFile.fullParts cfg f).any (fun p => pyStartsWith p ".") then false
  else if (SrcFile.fullParts cfg f).any (fun p => cpIgnoredPrefixes.contains p) then false
  else if cpIgnoredExtensions.contains (pyLower f.suffix) then false
  else if !cfg.includedExtensions.contains (pyLower f.suffix) then false
  else
    match f.stat with
    | .error _ => false
    | .ok size =>
      if size > cfg.maxFileSize then false
      else if cfg.excludedPatterns.any (fun pat => hasSubStr f.relPath pat) then false
      else true

/-- The mutable state of a `ContentProcessor` run: the stats dictionary and
the run-scoped `seen_contents` set of builtin hashes of cleaned content. -/
structure CPState where
  stats : Stats := {}
  seen : List Int := []
deriving Repr, DecidableEq

/-- `ContentProcessor.process_file`.  Every early return classifies the
file as skipped or failed; an exception escaping any inner step (a stat or
read error, or a raising cleaner) is caught by the enclosing handler and
counted as failed.  The builtin `hash` of the cleaned content is both the
dedup key and the record's `hash` field. -/
def CP.processFile (env : Env) (cfg : Config) (st : CPState) (f : SrcFile) :
    Option FileRecord × CPState :=
  if !CP.shouldProcessFile cfg f then
    (none, { st with stats := { st.stats with skipped := st.stats.skipped + 1 } })
  else
    match f.stat with
    | .error _ => (none, { st with stats := { st.stats with failed := st.stats.failed + 1 } })
    | .ok rawSize =>
      let st := { st with stats := { st.stats with totalRaw := st.stats.totalRaw + rawSize } }
      match f.read with
      | .error _ => (none, { st with stats := { st.stats with failed := st.stats.failed + 1 } })
      | .ok content =>
        if isBlank content.data then
          (none, { st with stats := { st.stats with skipped := st.stats.skipped + 1 } })
        else
          let fileType := specGetFileType f
          match env.cleanC content f.fileType with
          | .error _ =>
            (none, { st with stats := { st.stats with failed := st.stats.failed + 1 } })
          | .ok cleaned =>
            let cleanedSize := utf8Len cleaned
            let st := { st with stats :=
              { st.stats with totalCleaned := st.stats.totalCleaned + cleanedSize,
                              fileTypes := bumpType st.stats.fileTypes f.fileType } }
            let contentHash := env.pyHash cleaned
            if st.seen.contains contentHash then
              (none, { st with stats := { st.stats with skipped := st.stats.skipped + 1 } })
            else
              let st := { st with seen := contentHash :: st.seen }
              let analysis := env.analyzeC cleaned f.fileType
              (some { path := f.relPath, type := fileType, analysis := analysis,
                      size := cleanedSize, content := cleaned,
                      hash := .intHash contentHash },
               { st with stats := { st.stats with processed := st.stats.processed + 1 } })

/-- Fold a per-file step over the enumerated files, collecting the non-`None`
results in order — the sequential gathering loop shared by the drivers
(per-file pipelines are independent; per-file counter updates are atomic,
so the cooperative interleaving of the async variants yields the same
outcome as this sequential fold). -/
def runFold {σ : Type} (step : σ → SrcFile → Option FileRecord × σ) :
    List SrcFile → σ → List FileRecord × σ
  | [], st => ([], st)
  | f :: rest, st =>
    let out := step st f
    let next := runFold step rest out.2
    (match out.1 with
     | some rcd => rcd :: next.1
     | none => next.1, next.2)

/-- `ContentProcessor.process_directory`: enumerate the regular files,
record `total_files` as their count, and run the pipeline over each. -/
def CP.run (env : Env) (cfg : Config) (fs : List SrcFile) :
    List FileRecord × CPState :=
  let files := fs.filter (fun f => f.isFile)
  runFold (CP.processFile env cfg) files
    { stats := { totalFiles := files.length } }

/-! ## `AsyncContentProcessor` (src/processors/async_processor.py) -/

/-- `AsyncContentProcessor.should_process_file`: regular file, size within
the ceiling, extension on the allow-list, no excluded-pattern substring;
errors (from the stat) are caught and yield `False`. -/
def Async.shouldProcessFile (cfg : Config) (f : SrcFile) : Bool :=
  if !f.isFile then false
  else
    match f.stat with
    | .error _ => false
    | .ok size =>
      if size > cfg.maxFileSize then false
      else if !cfg.includedExtensions.contains (pyLower f.suffix) then false
      else if cfg.excludedPatterns.any (fun pat => hasSubStr f.relPath pat) then false
      else true

/-- The mutable state of an `AsyncContentProcessor` run: the stats
dictionary and the `FileAnalysisCache`. -/
structure AsyncState where
  stats : Stats := {}
  cache : Cache := {}
deriving Repr, DecidableEq

/-- `AsyncContentProcessor.process_file`.  Raw size and the per-extension
counter are recorded before the digest of the raw bytes is looked up in
the cache; a hit short-circuits to the cached record, counting a cache hit
and a processed file.  On a miss the raw content is analyzed, then
cleaned, the record assembled and (when caching is enabled) stored. -/
def Async.processFile (env : Env) (cfg : Config) (st : AsyncState) (f : SrcFile) :
    Option FileRecord × AsyncState :=
  if !Async.shouldProcessFile cfg f then
    (none, { st with stats := { st.stats with skipped := st.stats.skipped + 1 } })
  else
    match f.stat with
    | .error _ => (none, { st with stats := { st.stats with failed := st.stats.failed + 1 } })
    | .ok rawSize =>
      let st := { st with stats :=
        { st.stats with totalRaw := st.stats.totalRaw + rawSize,
                        fileTypes := bumpType st.stats.fileTypes f.fileType } }
      let fileHash := env.sha256 f.raw
      match Cache.get st.cache fileHash with
      | (some cached, c') =>
        (some cached,
         { stats := { st.stats with
                        cacheHits := st.stats.cacheHits + 1,
                        totalCleaned := st.stats.totalCleaned + cached.content.length,
                        processed := st.stats.processed + 1 },
           cache := c' })
      | (none, c') =>
        let st : AsyncState := { st with cache := c' }
        match f.read with
        | .error _ => (none, { st with stats := { st.stats with failed := st.stats.failed + 1 } })
        | .ok content =>
          if content == "" then
            (none, { st with stats := { st.stats with skipped := st.stats.skipped + 1 } })
          else
            let analysis := env.analyzeC content f.fileType
            match env.cleanC content f.fileType with
            | .error _ =>
              (none, { st with stats := { st.stats with failed := st.stats.failed + 1 } })
            | .ok cleaned =>
              let rcd : FileRecord :=
                { path := f.relPath, type := f.fileType, analysis := analysis,
                  size := cleaned.length, content := cleaned,
                  hash := .strHash fileHash }
              let st := { st with stats :=
                { st.stats with totalCleaned := st.stats.totalCleaned + cleaned.length,
                                processed := st.stats.processed + 1 } }
              let st := if cfg.cacheEnabled then
                  { st with cache := Cache.set st.cache fileHash rcd (env.diskWriteOk fileHash) }
                else st
              (some rcd, st)

/-- `AsyncContentProcessor.process` / `process_directory`: `total_files`
counts every regular file under the root, while only the files passing the
eligibility check are dispatched to the pipeline. -/
def Async.run (env : Env) (cfg : Config) (fs : List SrcFile) :
    List FileRecord × AsyncState :=
  let files := fs.filter (fun f => Async.shouldProcessFile cfg f)
  runFold (Async.processFile env cfg) files
    { stats := { totalFiles := (fs.filter (fun f => f.isFile)).length } }

/-! ## `OptimizedContentProcessor` (src/processors/optimized_processor.py) -/

/-- `OptimizedContentProcessor.should_process_file`: the same checks as the
async variant (regular file, size, extension, excluded patterns), with
errors swallowed as ineligibility. -/
def Opt.shouldProcessFile (cfg : Config) (f : SrcFile) : Bool :=
  if !f.isFile then false
  else
    match f.stat with
    | .error _ => false
    | .ok size =>
      if size > cfg.maxFileSize then false
      else if !cfg.includedExtensions.contains (pyLower f.suffix) then false
      else if cfg.excludedPatterns.any (fun pat => hasSubStr f.relPath pat) then false
      else true

/-- The mutable state of an `OptimizedContentProcessor` run. -/
structure OptState where
  stats : Stats := {}
deriving Repr, DecidableEq

/-- `str(file_path)` as it appears in failure-detail entries. -/
def SrcFile.fullPath (cfg : Config) (f : SrcFile) : String :=
  joinPath (SrcFile.fullParts cfg f)

/-- `OptimizedContentProcessor.process_file`.  `read_file_safely` returns
`None` when no fallback can read the file, which is classified as a skip;
cleaning failures and analysis failures (a raised exception or a
`success: false` result) are classified as failed with a detail entry; a
stat error reaches the enclosing handler and is failed likewise.  There is
no dedup step in this variant. -/
def Opt.processFile (env : Env) (cfg : Config) (st : OptState) (f : SrcFile) :
    Option FileRecord × OptState :=
  if !Opt.shouldProcessFile cfg f then
    (none, { st with stats := { st.stats with skipped := st.stats.skipped + 1 } })
  else
    match f.stat with
    | .error e =>
      (none, { st with stats :=
        { st.stats with
            failed := st.stats.failed + 1,
            failedInfo := st.stats.failedInfo ++
              [(f.fullPath cfg, "Unexpected error: " ++ e.msg)] } })
    | .ok rawSize =>
      if rawSize == 0 then
        (none, { st with stats := { st.stats with skipped := st.stats.skipped + 1 } })
      else
        let st := { st with stats := { st.stats with totalRaw := st.stats.totalRaw + rawSize } }
        match f.read.toOption with
        | none => (none, { st with stats := { st.stats with skipped := st.stats.skipped + 1 } })
        | some content =>
          if isBlank content.data then
            (none, { st with stats := { st.stats with skipped := st.stats.skipped + 1 } })
          else
            match env.cleanC content f.fileType with
            | .error e =>
              (none, { st with stats :=
                { st.stats with
                    failed := st.stats.failed + 1,
                    failedInfo := st.stats.failedInfo ++
                      [(f.fullPath cfg, "Content cleaning error: " ++ e.msg)] } })
            | .ok cleaned =>
              if isBlank cleaned.data then
                (none, { st with stats := { st.stats with skipped := st.stats.skipped + 1 } })
              else
                let cleanedSize := utf8Len cleaned
                let st := { st with stats :=
                  { st.stats with totalCleaned := st.stats.totalCleaned + cleanedSize,
                                  fileTypes := bumpType st.stats.fileTypes f.fileType } }
                let analysis := env.analyzeC cleaned f.fileType
                if !analysis.success then
                  let errText := match analysis with
                    | .err m => m
                    | _ => "Unknown analysis error"
                  (none, { st with stats :=
                    { st.stats with
                        failed := st.stats.failed + 1,
                        failedInfo := st.stats.failedInfo ++
                          [(f.fullPath cfg, "Analysis error: " ++ errText)] } })
                else
                  (some { path := f.relPath, type := f.fileType, analysis := analysis,
                          size := cleanedSize, content := cleaned,
                          hash := .strHash (env.sha256 f.raw) },
                   { st with stats := { st.stats with processed := st.stats.processed + 1 } })

/-- `OptimizedContentProcessor.process`: the enumeration keeps only the
regular files that pass the eligibility check, and `total_files` is the
length of that filtered list. -/
def Opt.run (env : Env) (cfg : Config) (fs : List SrcFile) :
    List FileRecord × OptState :=
  let files := fs.filter (fun f => f.isFile && Opt.shouldProcessFile cfg f)
  runFold (Opt.processFile env cfg) files
    { stats := { totalFiles := files.length } }

/-! ## Concrete instances used in the worked examples below -/

/-- A run environment whose string hash is the constant 0 (one possible
per-process salt), whose cleaner is the identity (the behaviour of
`ast.unparse ∘ ast.parse` on already-normalized source) and whose digest
function tags the raw bytes. -/
def envA : Env :=
  { pyHash := fun _ => 0,
    sha256 := fun s => "sha-" ++ s,
    cleanC := fun c _ => .ok c,
    analyzeC := fun _ _ => .pyOk [] [],
    diskWriteOk := fun _ => true }

/-- The same environment under a different per-process hash salt: only the
builtin string hash differs. -/
def envB : Env := { envA with pyHash := fun _ => 1 }

/-- A run environment dispatching through the modelled `CodeAnalyzer`
registry (the Python-variant parameters are only exercised on `.py`
files). -/
def envJs : Env :=
  { pyHash := fun _ => 0,
    sha256 := fun s => "sha-" ++ s,
    cleanC := fun c t => .ok (CodeAnalyzer.cleanContent id c t),
    analyzeC := fun c t => CodeAnalyzer.analyzeCode (fun _ => .pyOk [] []) c t,
    diskWriteOk := fun _ => true }

/-- A small readable Python file. -/
def pyFileA : SrcFile :=
  { parts := ["a.py"], isFile := true, stat := .ok 5,
    read := .ok "x = 1", raw := "x = 1" }

/-- A second path with byte-identical content. -/
def pyFileB : SrcFile :=
  { parts := ["b.py"], isFile := true, stat := .ok 5,
    read := .ok "x = 1", raw := "x = 1" }

/-- A small readable JavaScript file. -/
def jsFileA : SrcFile :=
  { parts := ["a.js"], isFile := true, stat := .ok 10,
    read := .ok "var x = 1;", raw := "var x = 1;" }

/-- A second path with byte-identical JavaScript content. -/
def jsFileB : SrcFile :=
  { parts := ["b.js"], isFile := true, stat := .ok 10,
    read := .ok "var x = 1;", raw := "var x = 1;" }

/-- A regular file whose extension is not on the allow-list. -/
def mdFile : SrcFile :=
  { parts := ["notes.md"], isFile := true, stat := .ok 5,
    read := .ok "hello", raw := "hello" }

/-- A regular file whose stat raises. -/
def statErrFile : SrcFile :=
  { parts := ["c.py"], isFile := true, stat := .error .osError,
    read := .ok "y = 2", raw := "y = 2" }

/-- A regular eligible file whose read raises a decode error. -/
def readErrFile : SrcFile :=
  { parts := ["r.py"], isFile := true, stat := .ok 4,
    read := .error .unicodeDecodeError, raw := "" }

/-- A record as previously cached for `pyFileA`'s digest under `envA`. -/
def cachedRec : FileRecord :=
  { path := "a.py", type := "py", analysis := .pyOk [] [], size := 5,
    content := "x = 1", hash := .strHash "sha-x = 1" }

/-- An `AsyncContentProcessor` state whose cache already holds that
record in its memory layer. -/
def hitState : AsyncState :=
  { stats := {}, cache := { memory := [("sha-x = 1", cachedRec)], disk := [] } }

/-- A record sitting only in the durable cache layer. -/
def diskRec : FileRecord :=
  { path := "d.py", type := "py", analysis := .pyOk [] [], size := 5,
    content := "y = 2", hash := .strHash "sha-y = 2" }

/-- A cache with an empty memory layer, one loadable durable entry and one
corrupt durable entry. -/
def mixedCache : Cache :=
  { memory := [], disk := [("k1", .ok diskRec), ("k2", .corrupt)] }

/-- A module consisting of one async function definition:
`async def f(x): pass`. -/
def asyncOnlyModule : List PyStmt :=
  [.asyncFuncDef "f" ["x"] [] [.stmt []]]

/-- A module with two top-level functions and one class containing one
method. -/
def twoFunOneClassModule : List PyStmt :=
  [.funcDef "foo" ["x"] [] [.stmt []],
   .funcDef "bar" [] [] [.stmt []],
   .classDef "C" [] [] [.funcDef "m" ["self"] [] [.stmt []]]]

/-- An environment agreeing with `envA` on the raw-bytes digest but whose
cleaner raises and whose analyzer fails on every input. -/
def envC : Env :=
  { envA with cleanC := fun _ _ => .error .osError,
              analyzeC := fun _ _ => .err "boom" }

/-!
# Theorems

The worked claims.  Helper lemmas shared between them come first.
-/

/-- C6: over a grammar-parseable module consisting only of
`async def f(x): ...`, the analyzer emits no function descriptor at all —
`isinstance(node, ast.FunctionDef)` rejects `ast.AsyncFunctionDef` nodes,
so the flat walk collects nothing and the `is_async` flag can never be
true — while a module with two plain top-level functions and one class
with one method does yield 3 function descriptors, 1 class descriptor and
1 method entry as stated. -/
theorem claim6_async_function_defs_dropped :
    (pyAnalyzeTree asyncOnlyModule).functions = [] ∧
    ((pyAnalyzeTree twoFunOneClassModule).functions).length = 3 ∧
    ((pyAnalyzeTree twoFunOneClassModule).classes).map (fun c => c.methods.length)
      = [1] ∧
    ((pyAnalyzeTree twoFunOneClassModule).functions).all
      (fun fi => fi.isAsync == false) = true := by
  decide

/-- C7: for any content and any file-type tag with no registered analyzer,
`analyze_code` returns a failure result carrying the explicit
"Unsupported file type" message, while `clean_content` silently returns
the content unchanged. -/
theorem claim7_unregistered_tag_dispatch
    (pyAnalyze : String → AnalysisOutcome) (pyClean : String → String)
    (content fileType : String)
    (h : getAnalyzer fileType = none) :
    CodeAnalyzer.analyzeCode pyAnalyze content fileType =
      .err ("Unsupported file type: " ++ fileType) ∧
    CodeAnalyzer.cleanContent pyClean content fileType = content := by
  constructor
  · unfold CodeAnalyzer.analyzeCode
    rw [h]
  · unfold CodeAnalyzer.cleanContent
    rw [h]

/-- Worked instance of C7 at the unregistered tag `md`. -/
theorem claim7_unregistered_tag_dispatch_witness :
    CodeAnalyzer.analyzeCode (fun _ => .pyOk [] []) "# docs" "md" =
      .err ("Unsupported file type: " ++ "md") ∧
    CodeAnalyzer.cleanContent id "# docs" "md" = "# docs" :=
  claim7_unregistered_tag_dispatch (fun _ => .pyOk [] []) id "# docs" "md" (by decide)

/-- C9: a `set` digest is returned by a subsequent `get` regardless of the
durable write's outcome; a memory miss with a loadable durable entry is
promoted into the memory layer before being returned; a memory miss whose
durable entry exists but cannot be loaded is treated as a miss, with the
load error swallowed. -/
theorem claim9_cache_layering :
    (∀ (c : Cache) (k : String) (v : FileRecord) (w : Bool),
       (Cache.get (Cache.set c k v w) k).1 = some v) ∧
    (∀ (c : Cache) (k : String) (r : FileRecord),
       lookupKey c.memory k = none → lookupKey c.disk k = some (.ok r) →
       Cache.get c k = (some r, { c with memory := (k, r) :: c.memory })) ∧
    (∀ (c : Cache) (k : String),
       lookupKey c.memory k = none → lookupKey c.disk k = some .corrupt →
       Cache.get c k = (none, c)) := by
  refine ⟨?_, ?_, ?_⟩
  · intro c k v w
    simp [Cache.get, Cache.set, lookupKey]
  · intro c k r h1 h2
    simp [Cache.get, h1, h2]
  · intro c k h1 h2
    simp [Cache.get, h1, h2]

/-- Worked instance of C9 on a cache with one loadable and one corrupt
durable entry, including a `set` whose durable write fails. -/
theorem claim9_cache_layering_witness :
    (Cache.get (Cache.set mixedCache "k3" diskRec false) "k3").1 = some diskRec ∧
    Cache.get mixedCache "k1" =
      (some diskRec, { mixedCache with memory := [("k1", diskRec)] }) ∧
    Cache.get mixedCache "k2" = (none, mixedCache) :=
  ⟨claim9_cache_layering.1 mixedCache "k3" diskRec false,
   claim9_cache_layering.2.1 mixedCache "k1" diskRec (by decide) (by decide),
   claim9_cache_layering.2.2 mixedCache "k2" (by decide) (by decide)⟩

/-- Per-call accounting of `ContentProcessor.process_file`: the call
always returns a value (no exception escapes — the model is total because
every raising step is matched by the handler branch that classifies it),
`total_files` is untouched, and the outcome is classified: `None` comes
with exactly one of `skipped`/`failed` incremented, a record with
`processed` incremented. -/
theorem cp_step_classification (env : Env) (cfg : Config) (st : CPState)
    (f : SrcFile) (r : Option FileRecord) (st' : CPState)
    (h : CP.processFile env cfg st f = (r, st')) :
    st'.stats.totalFiles = st.stats.totalFiles ∧
    ((r = none ∧ st'.stats.processed = st.stats.processed ∧
       (st'.stats.skipped = st.stats.skipped + 1 ∧ st'.stats.failed = st.stats.failed ∨
        st'.stats.skipped = st.stats.skipped ∧ st'.stats.failed = st.stats.failed + 1)) ∨
     (r.isSome = true ∧ st'.stats.processed = st.stats.processed + 1 ∧
       st'.stats.skipped = st.stats.skipped ∧ st'.stats.failed = st.stats.failed)) := by
  simp only [CP.processFile] at h
  repeat' split at h
  all_goals (cases h; simp)

/-- Per-call accounting of `AsyncContentProcessor.process_file`, as for
`cp_step_classification`. -/
theorem async_step_classification (env : Env) (cfg : Config) (st : AsyncState)
    (f : SrcFile) (r : Option FileRecord) (st' : AsyncState)
    (h : Async.processFile env cfg st f = (r, st')) :
    st'.stats.totalFiles = st.stats.totalFiles ∧
    ((r = none ∧ st'.stats.processed = st.stats.processed ∧
       (st'.stats.skipped = st.stats.skipped + 1 ∧ st'.stats.failed = st.stats.failed ∨
        st'.stats.skipped = st.stats.skipped ∧ st'.stats.failed = st.stats.failed + 1)) ∨
     (r.isSome = true ∧ st'.stats.processed = st.stats.processed + 1 ∧
       st'.stats.skipped = st.stats.skipped ∧ st'.stats.failed = st.stats.failed)) := by
  simp only [Async.processFile] at h
  repeat' split at h
  all_goals (cases h; simp)

/-- Per-call accounting of `OptimizedContentProcessor.process_file`, as for
`cp_step_classification`. -/
theorem opt_step_classification (env : Env) (cfg : Config) (st : OptState)
    (f : SrcFile) (r : Option FileRecord) (st' : OptState)
    (h : Opt.processFile env cfg st f = (r, st')) :
    st'.stats.totalFiles = st.stats.totalFiles ∧
    ((r = none ∧ st'.stats.processed = st.stats.processed ∧
       (st'.stats.skipped = st.stats.skipped + 1 ∧ st'.stats.failed = st.stats.failed ∨
        st'.stats.skipped = st.stats.skipped ∧ st'.stats.failed = st.stats.failed + 1)) ∨
     (r.isSome = true ∧ st'.stats.processed = st.stats.processed + 1 ∧
       st'.stats.skipped = st.stats.skipped ∧ st'.stats.failed = st.stats.failed)) := by
  simp only [Opt.processFile] at h
  repeat' split at h
  all_goals (cases h; simp)

/-- A raising stat makes `ContentProcessor.should_process_file` answer
`False` instead of propagating. -/
theorem cp_should_swallows_stat_error (cfg : Config) (f : SrcFile) (e : PyErr)
    (h : f.stat = .error e) : CP.shouldProcessFile cfg f = false := by
  simp only [CP.shouldProcessFile, h]
  repeat' split
  all_goals rfl

/-- A raising stat makes `AsyncContentProcessor.should_process_file`
answer `False` instead of propagating. -/
theorem async_should_swallows_stat_error (cfg : Config) (f : SrcFile) (e : PyErr)
    (h : f.stat = .error e) : Async.shouldProcessFile cfg f = false := by
  simp only [Async.shouldProcessFile, h]
  repeat' split
  all_goals rfl

/-- A raising stat makes `OptimizedContentProcessor.should_process_file`
answer `False` instead of propagating. -/
theorem opt_should_swallows_stat_error (cfg : Config) (f : SrcFile) (e : PyErr)
    (h : f.stat = .error e) : Opt.shouldProcessFile cfg f = false := by
  simp only [Opt.shouldProcessFile, h]
  repeat' split
  all_goals rfl

/-- C3: for every input, each variant's `process_file` returns a
classified outcome — `None` with exactly one of the `skipped`/`failed`
counters incremented, or a record with `processed` incremented — for every
possible outcome of the checking, stat, read, cleaning and analysis steps
(the models range over all of them, raising steps included), and each
variant's `should_process_file` swallows a raising stat as
ineligibility. -/
theorem claim3_per_file_errors_confined :
    (∀ (env : Env) (cfg : Config) (st : CPState) (f : SrcFile)
       (r : Option FileRecord) (st' : CPState),
       CP.processFile env cfg st f = (r, st') →
       (r = none ∧ st'.stats.processed = st.stats.processed ∧
          (st'.stats.skipped = st.stats.skipped + 1 ∧ st'.stats.failed = st.stats.failed ∨
           st'.stats.skipped = st.stats.skipped ∧ st'.stats.failed = st.stats.failed + 1)) ∨
       (r.isSome = true ∧ st'.stats.processed = st.stats.processed + 1 ∧
          st'.stats.skipped = st.stats.skipped ∧ st'.stats.failed = st.stats.failed)) ∧
    (∀ (env : Env) (cfg : Config) (st : AsyncState) (f : SrcFile)
       (r : Option FileRecord) (st' : AsyncState),
       Async.processFile env cfg st f = (r, st') →
       (r = none ∧ st'.stats.processed = st.stats.processed ∧
          (st'.stats.skipped = st.stats.skipped + 1 ∧ st'.stats.failed = st.stats.failed ∨
           st'.stats.skipped = st.stats.skipped ∧ st'.stats.failed = st.stats.failed + 1)) ∨
       (r.isSome = true ∧ st'.stats.processed = st.stats.processed + 1 ∧
          st'.stats.skipped = st.stats.skipped ∧ st'.stats.failed = st.stats.failed)) ∧
    (∀ (env : Env) (cfg : Config) (st : OptState) (f : SrcFile)
       (r : Option FileRecord) (st' : OptState),
       Opt.processFile env cfg st f = (r, st') →
       (r = none ∧ st'.stats.processed = st.stats.processed ∧
          (st'.stats.skipped = st.stats.skipped + 1 ∧ st'.stats.failed = st.stats.failed ∨
           st'.stats.skipped = st.stats.skipped ∧ st'.stats.failed = st.stats.failed + 1)) ∨
       (r.isSome = true ∧ st'.stats.processed = st.stats.processed + 1 ∧
          st'.stats.skipped = st.stats.skipped ∧ st'.stats.failed = st.stats.failed)) ∧
    (∀ (cfg : Config) (f : SrcFile) (e : PyErr), f.stat = .error e →
       CP.shouldProcessFile cfg f = false ∧
       Async.shouldProcessFile cfg f = false ∧
       Opt.shouldProcessFile cfg f = false) :=
  ⟨fun env cfg st f r st' h => (cp_step_classification env cfg st f r st' h).2,
   fun env cfg st f r st' h => (async_step_classification env cfg st f r st' h).2,
   fun env cfg st f r st' h => (opt_step_classification env cfg st f r st' h).2,
   fun cfg f e h =>
     ⟨cp_should_swallows_stat_error cfg f e h,
      async_should_swallows_stat_error cfg f e h,
      opt_should_swallows_stat_error cfg f e h⟩⟩

/-- Worked instance of C3: a file whose read raises is classified (here as
failed), and a file whose stat raises is ineligible for all three
variants. -/
theorem claim3_per_file_errors_confined_witness :
    (((CP.processFile envA defaultConfig {} readErrFile).1 = none ∧
       (CP.processFile envA defaultConfig {} readErrFile).2.stats.processed =
         ({} : CPState).stats.processed ∧
       ((CP.processFile envA defaultConfig {} readErrFile).2.stats.skipped =
           ({} : CPState).stats.skipped + 1 ∧
         (CP.processFile envA defaultConfig {} readErrFile).2.stats.failed =
           ({} : CPState).stats.failed ∨
        (CP.processFile envA defaultConfig {} readErrFile).2.stats.skipped =
           ({} : CPState).stats.skipped ∧
         (CP.processFile envA defaultConfig {} readErrFile).2.stats.failed =
           ({} : CPState).stats.failed + 1)) ∨
     ((CP.processFile envA defaultConfig {} readErrFile).1.isSome = true ∧
       (CP.processFile envA defaultConfig {} readErrFile).2.stats.processed =
         ({} : CPState).stats.processed + 1 ∧
       (CP.processFile envA defaultConfig {} readErrFile).2.stats.skipped =
         ({} : CPState).stats.skipped ∧
       (CP.processFile envA defaultConfig {} readErrFile).2.stats.failed =
         ({} : CPState).stats.failed)) ∧
    (CP.shouldProcessFile defaultConfig statErrFile = false ∧
     Async.shouldProcessFile defaultConfig statErrFile = false ∧
     Opt.shouldProcessFile defaultConfig statErrFile = false) :=
  ⟨claim3_per_file_errors_confined.1 envA defaultConfig {} readErrFile _ _ rfl,
   claim3_per_file_errors_confined.2.2.2 defaultConfig statErrFile .osError rfl⟩

/-- Every call of `ContentProcessor.process_file` adds exactly 1 to
`processed + skipped + failed` and leaves `total_files` unchanged. -/
theorem cp_step_sum (env : Env) (cfg : Config) (st : CPState) (f : SrcFile) :
    ((CP.processFile env cfg st f).2.stats.processed +
       (CP.processFile env cfg st f).2.stats.skipped +
       (CP.processFile env cfg st f).2.stats.failed
     = st.stats.processed + st.stats.skipped + st.stats.failed + 1) ∧
    (CP.processFile env cfg st f).2.stats.totalFiles = st.stats.totalFiles := by
  have h := cp_step_classification env cfg st f
    (CP.processFile env cfg st f).1 (CP.processFile env cfg st f).2 rfl
  rcases h with ⟨ht, ⟨_, hp, hsk | hsk⟩ | ⟨_, hp, hs, hf⟩⟩ <;> constructor <;> omega

/-- Every call of `AsyncContentProcessor.process_file` adds exactly 1 to
`processed + skipped + failed` and leaves `total_files` unchanged. -/
theorem async_step_sum (env : Env) (cfg : Config) (st : AsyncState) (f : SrcFile) :
    ((Async.processFile env cfg st f).2.stats.processed +
       (Async.processFile env cfg st f).2.stats.skipped +
       (Async.processFile env cfg st f).2.stats.failed
     = st.stats.processed + st.stats.skipped + st.stats.failed + 1) ∧
    (Async.processFile env cfg st f).2.stats.totalFiles = st.stats.totalFiles := by
  have h := async_step_classification env cfg st f
    (Async.processFile env cfg st f).1 (Async.processFile env cfg st f).2 rfl
  rcases h with ⟨ht, ⟨_, hp, hsk | hsk⟩ | ⟨_, hp, hs, hf⟩⟩ <;> constructor <;> omega

/-- Every call of `OptimizedContentProcessor.process_file` adds exactly 1
to `processed + skipped + failed` and leaves `total_files` unchanged. -/
theorem opt_step_sum (env : Env) (cfg : Config) (st : OptState) (f : SrcFile) :
    ((Opt.processFile env cfg st f).2.stats.processed +
       (Opt.processFile env cfg st f).2.stats.skipped +
       (Opt.processFile env cfg st f).2.stats.failed
     = st.stats.processed + st.stats.skipped + st.stats.failed + 1) ∧
    (Opt.processFile env cfg st f).2.stats.totalFiles = st.stats.totalFiles := by
  have h := opt_step_classification env cfg st f
    (Opt.processFile env cfg st f).1 (Opt.processFile env cfg st f).2 rfl
  rcases h with ⟨ht, ⟨_, hp, hsk | hsk⟩ | ⟨_, hp, hs, hf⟩⟩ <;> constructor <;> omega

/-- Folding a step that adds 1 to `processed + skipped + failed` per file
and preserves `total_files` adds the file count to the sum and preserves
`total_files`. -/
theorem runFold_sum {σ : Type} (step : σ → SrcFile → Option FileRecord × σ)
    (stats : σ → Stats)
    (hstep : ∀ st f,
      (stats (step st f).2).processed + (stats (step st f).2).skipped +
          (stats (step st f).2).failed
        = (stats st).processed + (stats st).skipped + (stats st).failed + 1 ∧
      (stats (step st f).2).totalFiles = (stats st).totalFiles) :
    ∀ (files : List SrcFile) (st : σ),
      ((stats (runFold step files st).2).processed +
         (stats (runFold step files st).2).skipped +
         (stats (runFold step files st).2).failed
       = (stats st).processed + (stats st).skipped + (stats st).failed +
           files.length) ∧
      (stats (runFold step files st).2).totalFiles = (stats st).totalFiles := by
  intro files
  induction files with
  | nil => intro st; simp [runFold]
  | cons f rest ih =>
    intro st
    have h1 := hstep st f
    have h2 := ih (step st f).2
    simp only [runFold]
    constructor
    · simp only [List.length_cons]
      omega
    · omega

/-- A file passing the async eligibility check is a regular file. -/
theorem async_should_isFile (cfg : Config) (f : SrcFile)
    (h : Async.shouldProcessFile cfg f = true) : f.isFile = true := by
  cases hf : f.isFile
  · rw [Async.shouldProcessFile, hf] at h
    simp at h
  · rfl

/-- Filtering by a stronger predicate keeps at most as many elements. -/
theorem filter_length_le {α : Type} (p q : α → Bool)
    (h : ∀ a, p a = true → q a = true) :
    ∀ l : List α, (l.filter p).length ≤ (l.filter q).length := by
  intro l
  induction l with
  | nil => simp
  | cons a l ih =>
    simp only [List.filter]
    cases hp : p a
    · cases hq : q a
      · exact ih
      · simp only [List.length_cons]
        omega
    · rw [h a hp]
      simp only [List.length_cons]
      omega

/-- C5 (as amended): for every run over every file list,
`processed + skipped + failed = total_files` holds for `ContentProcessor`
and `OptimizedContentProcessor`, and
`processed + skipped + failed ≤ total_files` for `AsyncContentProcessor`,
whose `total_files` also counts regular files the eligibility filter
rejects. -/
theorem claim5_counter_sum_vs_total (env : Env) (cfg : Config) (fs : List SrcFile) :
    ((CP.run env cfg fs).2.stats.processed + (CP.run env cfg fs).2.stats.skipped +
       (CP.run env cfg fs).2.stats.failed = (CP.run env cfg fs).2.stats.totalFiles) ∧
    ((Opt.run env cfg fs).2.stats.processed + (Opt.run env cfg fs).2.stats.skipped +
       (Opt.run env cfg fs).2.stats.failed = (Opt.run env cfg fs).2.stats.totalFiles) ∧
    ((Async.run env cfg fs).2.stats.processed + (Async.run env cfg fs).2.stats.skipped +
       (Async.run env cfg fs).2.stats.failed ≤ (Async.run env cfg fs).2.stats.totalFiles) := by
  refine ⟨?_, ?_, ?_⟩
  · have h := runFold_sum (CP.processFile env cfg) (fun s => s.stats)
      (fun st f => cp_step_sum env cfg st f)
      (fs.filter (fun f => f.isFile))
      { stats := { totalFiles := (fs.filter (fun f => f.isFile)).length } }
    simp only [CP.run]
    simp at h
    omega
  · have h := runFold_sum (Opt.processFile env cfg) (fun s => s.stats)
      (fun st f => opt_step_sum env cfg st f)
      (fs.filter (fun f => f.isFile && Opt.shouldProcessFile cfg f))
      { stats := { totalFiles :=
          (fs.filter (fun f => f.isFile && Opt.shouldProcessFile cfg f)).length } }
    simp only [Opt.run]
    simp at h
    omega
  · have h := runFold_sum (Async.processFile env cfg) (fun s => s.stats)
      (fun st f => async_step_sum env cfg st f)
      (fs.filter (fun f => Async.shouldProcessFile cfg f))
      { stats := { totalFiles := (fs.filter (fun f => f.isFile)).length } }
    have hle := filter_length_le (fun f => Async.shouldProcessFile cfg f)
      (fun f => f.isFile) (fun f => async_should_isFile cfg f) fs
    simp only [Async.run]
    simp at h
    omega

/-- Counterexample to C5 as stated: a run of `AsyncContentProcessor` over
one regular, stat-able file whose extension is off the allow-list — every
enumerated entry is a regular file reachable without enumeration errors,
yet `processed + skipped + failed = 0 < 1 = total_files`, because the
ineligible file is counted in `total_files` but never dispatched. -/
theorem claim5_equality_counterexample :
    (Async.run envA defaultConfig [mdFile]).2.stats.totalFiles = 1 ∧
    (Async.run envA defaultConfig [mdFile]).2.stats.processed = 0 ∧
    (Async.run envA defaultConfig [mdFile]).2.stats.skipped = 0 ∧
    (Async.run envA defaultConfig [mdFile]).2.stats.failed = 0 ∧
    mdFile.isFile = true ∧
    mdFile.stat = .ok 5 :=
  ⟨by decide, by decide, by decide, by decide, by decide, rfl⟩

/-- C8 (as amended): `ContentProcessor` and `AsyncContentProcessor` record
`total_files` as the count of all regular files enumerated, independent of
the eligibility filter. -/
theorem claim8_total_files_counts_regular (env : Env) (cfg : Config) (fs : List SrcFile) :
    (CP.run env cfg fs).2.stats.totalFiles = (fs.filter (fun f => f.isFile)).length ∧
    (Async.run env cfg fs).2.stats.totalFiles = (fs.filter (fun f => f.isFile)).length := by
  constructor
  · have h := runFold_sum (CP.processFile env cfg) (fun s => s.stats)
      (fun st f => cp_step_sum env cfg st f)
      (fs.filter (fun f => f.isFile))
      { stats := { totalFiles := (fs.filter (fun f => f.isFile)).length } }
    simp only [CP.run]
    simp at h
    omega
  · have h := runFold_sum (Async.processFile env cfg) (fun s => s.stats)
      (fun st f => async_step_sum env cfg st f)
      (fs.filter (fun f => Async.shouldProcessFile cfg f))
      { stats := { totalFiles := (fs.filter (fun f => f.isFile)).length } }
    simp only [Async.run]
    simp at h
    omega

/-- Counterexample to C8 as stated: `OptimizedContentProcessor` sets
`total_files` from the already-filtered eligible list, so one regular but
ineligible file yields `total_files = 0` while the run saw one regular
file. -/
theorem claim8_counterexample :
    (Opt.run envA defaultConfig [mdFile]).2.stats.totalFiles = 0 ∧
    ([mdFile].filter (fun f => f.isFile)).length = 1 := by
  exact ⟨by decide, by decide⟩

/-- A file passing `ContentProcessor`'s eligibility check is a regular
file. -/
theorem cp_should_isFile (cfg : Config) (f : SrcFile)
    (h : CP.shouldProcessFile cfg f = true) : f.isFile = true := by
  cases hf : f.isFile
  · rw [CP.shouldProcessFile, hf] at h
    simp at h
  · rfl

/-- C1 (as amended): in a `ContentProcessor` run over two eligible,
readable, non-blank files whose cleaned contents are byte-identical, the
result set contains exactly the first file's record and `skipped_files`
accounts for the suppressed copy (`processed = 1`, `skipped = 1`,
`failed = 0`): the second copy is stopped at the dedup check on the
builtin hash of the cleaned text. -/
theorem claim1_dedup_in_content_processor
    (env : Env) (cfg : Config) (f1 f2 : SrcFile) (n1 n2 : Nat) (c1 c2 cl : String)
    (h1 : CP.shouldProcessFile cfg f1 = true)
    (h2 : CP.shouldProcessFile cfg f2 = true)
    (hs1 : f1.stat = .ok n1) (hs2 : f2.stat = .ok n2)
    (hr1 : f1.read = .ok c1) (hr2 : f2.read = .ok c2)
    (hb1 : isBlank c1.data = false) (hb2 : isBlank c2.data = false)
    (hc1 : env.cleanC c1 f1.fileType = .ok cl)
    (hc2 : env.cleanC c2 f2.fileType = .ok cl) :
    (CP.run env cfg [f1, f2]).1 =
      [{ path := f1.relPath, type := specGetFileType f1,
         analysis := env.analyzeC cl f1.fileType, size := utf8Len cl,
         content := cl, hash := .intHash (env.pyHash cl) }] ∧
    (CP.run env cfg [f1, f2]).2.stats.skipped = 1 ∧
    (CP.run env cfg [f1, f2]).2.stats.processed = 1 ∧
    (CP.run env cfg [f1, f2]).2.stats.failed = 0 := by
  have hif1 : f1.isFile = true := cp_should_isFile cfg f1 h1
  have hif2 : f2.isFile = true := cp_should_isFile cfg f2 h2
  have hfilter : [f1, f2].filter (fun f => f.isFile) = [f1, f2] := by
    simp [hif1, hif2]
  simp only [CP.run, hfilter]
  simp [runFold, CP.processFile, h1, h2, hs1, hs2, hr1, hr2, hb1, hb2, hc1, hc2]

/-- Worked instance of the amended C1: two paths carrying the byte-identical
source `x = 1` yield one record and one skip. -/
theorem claim1_dedup_in_content_processor_witness :
    (CP.run envA defaultConfig [pyFileA, pyFileB]).1 =
      [{ path := pyFileA.relPath, type := specGetFileType pyFileA,
         analysis := envA.analyzeC "x = 1" pyFileA.fileType, size := utf8Len "x = 1",
         content := "x = 1", hash := .intHash (envA.pyHash "x = 1") }] ∧
    (CP.run envA defaultConfig [pyFileA, pyFileB]).2.stats.skipped = 1 ∧
    (CP.run envA defaultConfig [pyFileA, pyFileB]).2.stats.processed = 1 ∧
    (CP.run envA defaultConfig [pyFileA, pyFileB]).2.stats.failed = 0 :=
  claim1_dedup_in_content_processor envA defaultConfig pyFileA pyFileB 5 5
    "x = 1" "x = 1" "x = 1" (by decide) (by decide) rfl rfl rfl rfl
    (by decide) (by decide) rfl rfl

/-- Counterexample to C1 as stated: `OptimizedContentProcessor` has no
dedup step, so a run over two eligible files with byte-identical content
(before and after cleaning) emits two records and suppresses nothing. -/
theorem claim1_counterexample :
    (Opt.run envA defaultConfig [pyFileA, pyFileB]).1.length = 2 ∧
    ((Opt.run envA defaultConfig [pyFileA, pyFileB]).1.map FileRecord.content
      = ["x = 1", "x = 1"]) ∧
    ((Opt.run envA defaultConfig [pyFileA, pyFileB]).1.map FileRecord.path
      = ["a.py", "b.py"]) ∧
    (Opt.run envA defaultConfig [pyFileA, pyFileB]).2.stats.skipped = 0 :=
  ⟨by decide, by decide, by decide, by decide⟩

/-- C2: when the digest of the raw bytes hits the cache, `process_file`
returns the cached record as-is with only the bookkeeping updates — raw
size (recorded before the lookup), per-extension counter, cache hit,
cached-content size and processed count — and its result is unchanged
under arbitrary replacement of the cleaning and analysis functions, i.e.
neither is invoked. -/
theorem claim2_cache_hit_short_circuit
    (cfg : Config) (st : AsyncState) (f : SrcFile) (n : Nat) (rcd : FileRecord)
    (c' : Cache) (e1 e2 : Env)
    (hsha : e2.sha256 f.raw = e1.sha256 f.raw)
    (helig : Async.shouldProcessFile cfg f = true)
    (hstat : f.stat = .ok n)
    (hget : Cache.get st.cache (e1.sha256 f.raw) = (some rcd, c')) :
    Async.processFile e1 cfg st f =
      (some rcd,
       { stats := { st.stats with
                      totalRaw := st.stats.totalRaw + n,
                      fileTypes := bumpType st.stats.fileTypes f.fileType,
                      cacheHits := st.stats.cacheHits + 1,
                      totalCleaned := st.stats.totalCleaned + rcd.content.length,
                      processed := st.stats.processed + 1 },
         cache := c' }) ∧
    Async.processFile e2 cfg st f = Async.processFile e1 cfg st f := by
  unfold Async.processFile
  rw [helig, hstat, hsha]
  simp only [Bool.not_true, Bool.false_eq_true, if_false, hget]
  exact ⟨trivial, trivial⟩

/-- Worked instance of C2: a file whose digest is in the memory layer is
returned verbatim with the bookkeeping updates, also under an environment
whose cleaner raises and whose analyzer always fails. -/
theorem claim2_cache_hit_short_circuit_witness :
    Async.processFile envA defaultConfig hitState pyFileA =
      (some cachedRec,
       { stats := { hitState.stats with
                      totalRaw := hitState.stats.totalRaw + 5,
                      fileTypes := bumpType hitState.stats.fileTypes pyFileA.fileType,
                      cacheHits := hitState.stats.cacheHits + 1,
                      totalCleaned := hitState.stats.totalCleaned + cachedRec.content.length,
                      processed := hitState.stats.processed + 1 },
         cache := hitState.cache }) ∧
    Async.processFile envC defaultConfig hitState pyFileA =
      Async.processFile envA defaultConfig hitState pyFileA :=
  claim2_cache_hit_short_circuit defaultConfig hitState pyFileA 5 cachedRec
    hitState.cache envA envC rfl (by decide) rfl (by decide)

/-! ### Reduction and structural lemmas for the cleaner's scanners

Each scanner is defined by overlapping patterns on the first two
characters; the `_cons_ne` lemmas peel one character when the two-character
pattern does not match, and the positive equations reduce it when it
does. -/

theorem noDSlash_cons_ne (c : Char) (l : List Char)
    (hne : ∀ t, c = '/' → l = '/' :: t → False) :
    noDSlash (c :: l) = noDSlash l := by
  rw [noDSlash.eq_def]
  split
  · rename_i heq
    injection heq with h1 h2
    exact (hne _ h1 h2).elim
  · rename_i x xs heq
    injection heq with h1 h2
    rw [h2]
  · rename_i heq
    cases heq

theorem hasClose_cons_ne (c : Char) (l : List Char)
    (hne : ∀ t, c = '*' → l = '/' :: t → False) :
    hasClose (c :: l) = hasClose l := by
  rw [hasClose.eq_def]
  split
  · rename_i heq
    injection heq with h1 h2
    exact (hne _ h1 h2).elim
  · rename_i x xs heq
    injection heq with h1 h2
    rw [h2]
  · rename_i heq
    cases heq

theorem noOpenClose_cons_ne (c : Char) (l : List Char)
    (hne : ∀ t, c = '/' → l = '*' :: t → False) :
    noOpenClose (c :: l) = noOpenClose l := by
  rw [noOpenClose.eq_def]
  split
  · rename_i heq
    injection heq with h1 h2
    exact (hne _ h1 h2).elim
  · rename_i x xs heq
    injection heq with h1 h2
    rw [h2]
  · rename_i heq
    cases heq

theorem cutOneLine_cons_ne (c : Char) (l : List Char)
    (hne : ∀ t, c = '/' → l = '/' :: t → False) :
    cutOneLine (c :: l) = c :: cutOneLine l := by
  rw [cutOneLine.eq_def]
  split
  · rename_i heq
    injection heq with h1 h2
    exact (hne _ h1 h2).elim
  · rename_i x xs heq
    injection heq with h1 h2
    rw [h1, h2]
  · rename_i heq
    cases heq

theorem splitAtClose_cons_ne (c : Char) (l : List Char)
    (hne : ∀ t, c = '*' → l = '/' :: t → False) :
    splitAtClose (c :: l) = splitAtClose l := by
  rw [splitAtClose.eq_def]
  split
  · rename_i heq
    injection heq with h1 h2
    exact (hne _ h1 h2).elim
  · rename_i x xs heq
    injection heq with h1 h2
    rw [h2]
  · rename_i heq
    cases heq

theorem removeBlock_cons_ne (c : Char) (l : List Char)
    (hne : ∀ t, c = '/' → l = '*' :: t → False) :
    removeBlock (c :: l) = c :: removeBlock l := by
  rw [removeBlock.eq_def]
  split
  · rename_i heq
    injection heq with h1 h2
    exact (hne _ h1 h2).elim
  · rename_i x xs heq
    injection heq with h1 h2
    rw [h1, h2]
  · rename_i heq
    cases heq

theorem noOpenClose_open (rest : List Char) :
    noOpenClose ('/' :: '*' :: rest) = (!hasClose rest && noOpenClose rest) := by
  rw [noOpenClose]

theorem removeBlock_open_some (rest rest' : List Char)
    (h : splitAtClose rest = some rest') :
    removeBlock ('/' :: '*' :: rest) = removeBlock rest' := by
  rw [removeBlock]
  split
  · rename_i r' heq
    rw [h] at heq
    cases heq
    rfl
  · rename_i heq
    rw [h] at heq
    cases heq

theorem removeBlock_open_none (rest : List Char) (h : splitAtClose rest = none) :
    removeBlock ('/' :: '*' :: rest) = '/' :: '*' :: rest := by
  rw [removeBlock]
  split
  · rename_i r' heq
    rw [h] at heq
    cases heq
  · rfl

theorem noDSlash_tail (c : Char) (l : List Char)
    (h : noDSlash (c :: l) = true) : noDSlash l = true := by
  rw [noDSlash.eq_def] at h
  split at h
  · cases h
  · rename_i x xs heq
    injection heq with h1 h2
    rw [h2]
    exact h
  · rename_i heq
    cases heq

theorem hasClose_tail (c : Char) (l : List Char)
    (h : hasClose (c :: l) = false) : hasClose l = false := by
  rw [hasClose.eq_def] at h
  split at h
  · cases h
  · rename_i x xs heq
    injection heq with h1 h2
    rw [h2]
    exact h
  · rename_i heq
    cases heq

theorem noOpenClose_tail (c : Char) (l : List Char)
    (h : noOpenClose (c :: l) = true) : noOpenClose l = true := by
  rw [noOpenClose.eq_def] at h
  split at h
  · rename_i heq
    injection heq with h1 h2
    subst h2
    simp only [Bool.and_eq_true, Bool.not_eq_eq_eq_not, Bool.not_true] at h
    rw [noOpenClose_cons_ne '*' _ (fun t h1 _ => by cases h1)]
    exact h.2
  · rename_i x xs heq
    injection heq with h1 h2
    rw [h2]
    exact h
  · rename_i heq
    cases heq

/-- The close-scanner finds nothing exactly when no `*/` occurs. -/
theorem splitAtClose_none_iff (l : List Char) :
    splitAtClose l = none ↔ hasClose l = false := by
  induction l using splitAtClose.induct with
  | case1 rest =>
    rw [splitAtClose, hasClose]
    simp
  | case2 c rest hne ih =>
    rw [splitAtClose_cons_ne c rest hne, hasClose_cons_ne c rest hne]
    exact ih
  | case3 =>
    rw [splitAtClose, hasClose]
    simp

/-- The suffix after the first `*/` of a `//`-free list is `//`-free. -/
theorem splitAtClose_some_noDSlash (l : List Char) :
    ∀ r, noDSlash l = true → splitAtClose l = some r → noDSlash r = true := by
  induction l using splitAtClose.induct with
  | case1 rest =>
    intro r hnd h
    rw [splitAtClose] at h
    cases h
    exact noDSlash_tail _ _ (noDSlash_tail _ _ hnd)
  | case2 c rest hne ih =>
    intro r hnd h
    rw [splitAtClose_cons_ne c rest hne] at h
    exact ih r (noDSlash_tail _ _ hnd) h
  | case3 =>
    intro r hnd h
    simp [splitAtClose] at h

/-- With no `*/` anywhere, no `/*` can be closed. -/
theorem hasClose_false_noOpenClose (l : List Char) :
    hasClose l = false → noOpenClose l = true := by
  induction l using noOpenClose.induct with
  | case1 rest ih =>
    intro h
    have h1 : hasClose ('*' :: rest) = false :=
      hasClose_tail _ _ h
    have h2 : hasClose rest = false := by
      cases rest with
      | nil => rfl
      | cons d r2 =>
        by_cases hd : d = '/'
        · subst hd
          rw [hasClose] at h1
          cases h1
        · exact hasClose_tail _ _ h1
    rw [noOpenClose_open, h2]
    simp [ih h2]
  | case2 c rest hne ih =>
    intro h
    rw [noOpenClose_cons_ne c rest hne]
    exact ih (hasClose_tail _ _ h)
  | case3 =>
    intro h
    rfl

/-- A `//`-free line passes the line-comment scrubber unchanged. -/
theorem cutOneLine_fix (l : List Char) :
    noDSlash l = true → cutOneLine l = l := by
  induction l using cutOneLine.induct with
  | case1 t =>
    intro h
    rw [noDSlash] at h
    cases h
  | case2 c rest hne ih =>
    intro h
    rw [cutOneLine_cons_ne c rest hne, ih (noDSlash_tail _ _ h)]
  | case3 =>
    intro h
    rfl

/-- A list in which no `/*` is ever closed passes the block-comment
scrubber unchanged. -/
theorem removeBlock_fix (l : List Char) :
    noOpenClose l = true → removeBlock l = l := by
  induction l using removeBlock.induct with
  | case1 rest rest' h ih =>
    intro hoc
    rw [noOpenClose_open] at hoc
    simp only [Bool.and_eq_true, Bool.not_eq_eq_eq_not, Bool.not_true] at hoc
    rw [(splitAtClose_none_iff rest).mpr hoc.1] at h
    cases h
  | case2 rest h =>
    intro hoc
    exact removeBlock_open_none rest h
  | case3 c rest hne ih =>
    intro hoc
    rw [removeBlock_cons_ne c rest hne, ih (noOpenClose_tail _ _ hoc)]
  | case4 =>
    intro hoc
    rw [removeBlock]

theorem hasClose_singleton (c : Char) : hasClose [c] = false := by
  rw [hasClose_cons_ne c [] (fun t _ h => by cases h), hasClose]

theorem hasClose_append_mono (a b : List Char) :
    hasClose a = true → hasClose (a ++ b) = true := by
  induction a using hasClose.induct with
  | case1 t =>
    intro h
    simp only [List.cons_append]
    rw [hasClose]
  | case2 c rest hne ih =>
    intro h
    cases rest with
    | nil => rw [hasClose_singleton] at h; cases h
    | cons d r2 =>
      have h' : hasClose (d :: r2) = true := by
        rw [hasClose_cons_ne c _ hne] at h
        exact h
      simp only [List.cons_append]
      rw [hasClose_cons_ne c _ (fun t h1 h2 => by
        injection h2 with h2a h2b
        exact hne _ h1 (by rw [h2a]))]
      exact ih h'
  | case3 =>
    intro h
    cases h

theorem hasClose_append_nl (a b : List Char) :
    hasClose (a ++ '\n' :: b) = (hasClose a || hasClose b) := by
  induction a using hasClose.induct with
  | case1 t =>
    simp only [List.cons_append]
    rw [hasClose, hasClose]
    simp
  | case2 c rest hne ih =>
    cases rest with
    | nil =>
      simp only [List.nil_append, List.cons_append]
      rw [hasClose_cons_ne c _ (fun t _ h => by cases h),
          hasClose_cons_ne '\n' _ (fun t h _ => by cases h),
          hasClose_singleton]
      simp
    | cons d r2 =>
      simp only [List.cons_append] at ih ⊢
      rw [hasClose_cons_ne c _ (fun t h1 h2 => by
            injection h2 with h2a h2b
            exact hne _ h1 (by rw [h2a])),
          hasClose_cons_ne c _ hne]
      exact ih
  | case3 =>
    simp only [List.nil_append]
    rw [hasClose_cons_ne '\n' _ (fun t h _ => by cases h), hasClose]
    simp

theorem noDSlash_append_left (a b : List Char) :
    noDSlash (a ++ b) = true → noDSlash a = true := by
  induction a using noDSlash.induct with
  | case1 t =>
    intro h
    simp only [List.cons_append] at h
    rw [noDSlash] at h
    cases h
  | case2 c rest hne ih =>
    intro h
    cases rest with
    | nil =>
      rw [noDSlash_cons_ne c [] (fun t _ hx => by cases hx), noDSlash]
    | cons d r2 =>
      simp only [List.cons_append] at h
      rw [noDSlash_cons_ne c _ (fun t h1 h2 => by
        injection h2 with h2a h2b
        exact hne _ h1 (by rw [h2a]))] at h
      rw [noDSlash_cons_ne c _ hne]
      exact ih h
  | case3 =>
    intro h
    rfl

theorem noDSlash_append_right (a b : List Char) :
    noDSlash (a ++ b) = true → noDSlash b = true := by
  induction a with
  | nil => exact fun h => h
  | cons c a' ih =>
    intro h
    exact ih (noDSlash_tail _ _ h)

theorem noDSlash_append_nl (a b : List Char)
    (ha : noDSlash a = true) (hb : noDSlash b = true) :
    noDSlash (a ++ '\n' :: b) = true := by
  induction a using noDSlash.induct with
  | case1 t =>
    rw [noDSlash] at ha
    cases ha
  | case2 c rest hne ih =>
    cases rest with
    | nil =>
      simp only [List.nil_append, List.cons_append]
      rw [noDSlash_cons_ne c _ (fun t _ h => by cases h),
          noDSlash_cons_ne '\n' _ (fun t h _ => by cases h)]
      exact hb
    | cons d r2 =>
      simp only [List.cons_append] at ih ⊢
      rw [noDSlash_cons_ne c _ (fun t h1 h2 => by
        injection h2 with h2a h2b
        exact hne _ h1 (by rw [h2a]))]
      exact ih (noDSlash_tail _ _ ha)
  | case3 =>
    simp only [List.nil_append]
    rw [noDSlash_cons_ne '\n' _ (fun t h _ => by cases h)]
    exact hb

theorem noOpenClose_append_right (a b : List Char) :
    noOpenClose (a ++ b) = true → noOpenClose b = true := by
  induction a with
  | nil => exact fun h => h
  | cons c a' ih =>
    intro h
    exact ih (noOpenClose_tail _ _ h)

theorem noOpenClose_append_left (a b : List Char) :
    noOpenClose (a ++ b) = true → noOpenClose a = true := by
  induction a using noOpenClose.induct with
  | case1 rest ih =>
    intro h
    simp only [List.cons_append] at h
    rw [noOpenClose_open] at h
    simp only [Bool.and_eq_true, Bool.not_eq_eq_eq_not, Bool.not_true] at h
    rw [noOpenClose_open]
    have hc : hasClose rest = false := by
      cases hcr : hasClose rest
      · rfl
      · rw [hasClose_append_mono rest b hcr] at h
        cases h.1
    rw [hc]
    simp [ih h.2]
  | case2 c rest hne ih =>
    intro h
    cases rest with
    | nil =>
      rw [noOpenClose_cons_ne c [] (fun t _ hx => by cases hx)]
      rfl
    | cons d r2 =>
      simp only [List.cons_append] at h
      rw [noOpenClose_cons_ne c _ (fun t h1 h2 => by
        injection h2 with h2a h2b
        exact hne _ h1 (by rw [h2a]))] at h
      rw [noOpenClose_cons_ne c _ hne]
      exact ih h
  | case3 =>
    intro h
    rfl

/-- Replacing everything after a line break by a tail that is itself
clean of closable opens, and whose closes all occur in the old tail,
preserves the no-closable-open property. -/
theorem noOpenClose_replace_tail (b0 b' : List Char)
    (hb' : noOpenClose b' = true)
    (himp : hasClose b' = true → hasClose b0 = true) :
    ∀ a, noOpenClose (a ++ '\n' :: b0) = true →
      noOpenClose (a ++ '\n' :: b') = true := by
  intro a
  induction a using noOpenClose.induct with
  | case1 rest ih =>
    intro h
    simp only [List.cons_append] at h ⊢
    rw [noOpenClose_open] at h ⊢
    simp only [Bool.and_eq_true, Bool.not_eq_eq_eq_not, Bool.not_true] at h ⊢
    rw [hasClose_append_nl] at h
    rw [hasClose_append_nl]
    simp only [Bool.or_eq_false_iff] at h
    constructor
    · simp only [Bool.or_eq_false_iff]
      refine ⟨h.1.1, ?_⟩
      cases hcb : hasClose b'
      · rfl
      · rw [himp hcb] at h
        cases h.1.2
    · exact ih h.2
  | case2 c rest hne ih =>
    intro h
    cases rest with
    | nil =>
      simp only [List.nil_append, List.cons_append] at h ⊢
      rw [noOpenClose_cons_ne c _ (fun t _ hx => by cases hx),
          noOpenClose_cons_ne '\n' _ (fun t hx _ => by cases hx)]
      exact hb'
    | cons d r2 =>
      simp only [List.cons_append] at h ih ⊢
      rw [noOpenClose_cons_ne c _ (fun t h1 h2 => by
        injection h2 with h2a h2b
        exact hne _ h1 (by rw [h2a]))] at h
      rw [noOpenClose_cons_ne c _ (fun t h1 h2 => by
        injection h2 with h2a h2b
        exact hne _ h1 (by rw [h2a]))]
      exact ih h
  | case3 =>
    intro h
    simp only [List.nil_append] at h ⊢
    rw [noOpenClose_cons_ne '\n' _ (fun t hx _ => by cases hx)]
    exact hb'

/-- The central invariant: on a `//`-free input, the block-comment
scrubber's output is still `//`-free and contains no `/*` with a later
`*/` — a `/` is never left adjacent to a removed block's boundary, because
`//*` and `*//` patterns would have contained `//`. -/
theorem removeBlock_inv (l : List Char) :
    noDSlash l = true →
    noDSlash (removeBlock l) = true ∧ noOpenClose (removeBlock l) = true := by
  induction l using removeBlock.induct with
  | case1 rest rest' h ih =>
    intro hnd
    rw [removeBlock_open_some rest rest' h]
    exact ih (splitAtClose_some_noDSlash rest rest'
      (noDSlash_tail _ _ (noDSlash_tail _ _ hnd)) h)
  | case2 rest h =>
    intro hnd
    rw [removeBlock_open_none rest h]
    refine ⟨hnd, ?_⟩
    rw [noOpenClose_open]
    have hc : hasClose rest = false := (splitAtClose_none_iff rest).mp h
    rw [hc]
    simp [hasClose_false_noOpenClose rest hc]
  | case3 c rest hne ih =>
    intro hnd
    rw [removeBlock_cons_ne c rest hne]
    obtain ⟨ndY, ocY⟩ := ih (noDSlash_tail _ _ hnd)
    by_cases hc : c = '/'
    · subst hc
      cases rest with
      | nil =>
        rw [removeBlock]
        constructor
        · rw [noDSlash_cons_ne '/' [] (fun t _ hx => by cases hx), noDSlash]
        · rw [noOpenClose_cons_ne '/' [] (fun t _ hx => by cases hx)]
          rfl
      | cons d r2 =>
        have hd_slash : d ≠ '/' := by
          intro hd
          subst hd
          rw [noDSlash] at hnd
          cases hnd
        have hd_star : d ≠ '*' := by
          intro hd
          subst hd
          exact hne r2 rfl rfl
        have hY : removeBlock (d :: r2) = d :: removeBlock r2 :=
          removeBlock_cons_ne d r2 (fun t h1 _ => hd_slash h1)
        rw [hY]
        rw [hY] at ndY ocY
        constructor
        · rw [noDSlash_cons_ne '/' _ (fun t _ hx => by
            injection hx with hxa
            exact hd_slash hxa)]
          exact ndY
        · rw [noOpenClose_cons_ne '/' _ (fun t _ hx => by
            injection hx with hxa
            exact hd_star hxa)]
          exact ocY
    · constructor
      · rw [noDSlash_cons_ne c _ (fun t h1 _ => hc h1)]
        exact ndY
      · rw [noOpenClose_cons_ne c _ (fun t h1 _ => hc h1)]
        exact ocY
  | case4 =>
    intro hnd
    rw [removeBlock]
    exact ⟨rfl, rfl⟩

/-! ### Line-splitting and joining -/

theorem joinNl_cons_cons (l x : List Char) (t : List (List Char)) :
    joinNl (l :: x :: t) = l ++ '\n' :: joinNl (x :: t) := by
  rw [joinNl]
  simp

theorem consHead_ne_nil (c : Char) (ls : List (List Char)) : consHead c ls ≠ [] := by
  cases ls <;> simp [consHead]

theorem splitNl_cons_ne (c : Char) (r : List Char) (hc : c ≠ '\n') :
    splitNl (c :: r) = consHead c (splitNl r) := by
  rw [splitNl.eq_def]
  split
  · rename_i heq
    cases heq
  · rename_i heq
    injection heq with h1 h2
    exact (hc h1).elim
  · rename_i x xs heq
    injection heq with h1 h2
    rw [h1, h2]

theorem splitNl_ne_nil (x : List Char) : splitNl x ≠ [] := by
  induction x using splitNl.induct with
  | case1 => simp [splitNl]
  | case2 rest ih => simp [splitNl]
  | case3 c rest hne ih =>
    rw [splitNl_cons_ne c rest (fun h => hne h)]
    exact consHead_ne_nil c (splitNl rest)

theorem joinNl_splitNl (x : List Char) : joinNl (splitNl x) = x := by
  induction x using splitNl.induct with
  | case1 => rw [splitNl, joinNl]
  | case2 rest ih =>
    rw [splitNl]
    cases hsr : splitNl rest with
    | nil => exact (splitNl_ne_nil rest hsr).elim
    | cons h t =>
      rw [joinNl_cons_cons, ← hsr, ih]
      rfl
  | case3 c rest hne ih =>
    rw [splitNl_cons_ne c rest (fun h => hne h)]
    cases hsr : splitNl rest with
    | nil => exact (splitNl_ne_nil rest hsr).elim
    | cons h t =>
      rw [hsr] at ih
      cases t with
      | nil =>
        rw [consHead, joinNl]
        rw [joinNl] at ih
        rw [ih]
      | cons x2 t2 =>
        rw [consHead, joinNl_cons_cons]
        rw [joinNl_cons_cons] at ih
        simp only [List.cons_append]
        rw [← ih]

theorem splitNl_no_nl (x : List Char) : ∀ l ∈ splitNl x, '\n' ∉ l := by
  induction x using splitNl.induct with
  | case1 =>
    intro l hl
    rw [splitNl] at hl
    simp at hl
    simp [hl]
  | case2 rest ih =>
    intro l hl
    rw [splitNl] at hl
    cases hl with
    | head => simp
    | tail _ h => exact ih l h
  | case3 c rest hne ih =>
    intro l hl
    rw [splitNl_cons_ne c rest (fun h => hne h)] at hl
    cases hsr : splitNl rest with
    | nil => exact (splitNl_ne_nil rest hsr).elim
    | cons h t =>
      rw [hsr, consHead] at hl
      cases hl with
      | head =>
        intro hmem
        cases hmem with
        | head => exact hne rfl
        | tail _ hmem2 =>
          exact ih h (by rw [hsr]; exact List.mem_cons_self h t) hmem2
      | tail _ hmem =>
        exact ih l (by rw [hsr]; exact List.mem_cons_of_mem h hmem)

theorem splitNl_single (l : List Char) (h : '\n' ∉ l) : splitNl l = [l] := by
  induction l with
  | nil => rw [splitNl]
  | cons c r ih =>
    have hc : c ≠ '\n' := fun hx => h (by rw [hx]; exact List.mem_cons_self _ _)
    rw [splitNl_cons_ne c r hc, ih (fun hx => h (List.mem_cons_of_mem c hx))]
    rw [consHead]

theorem splitNl_append_nl (l b : List Char) (h : '\n' ∉ l) :
    splitNl (l ++ '\n' :: b) = l :: splitNl b := by
  induction l with
  | nil =>
    simp only [List.nil_append]
    rw [splitNl]
  | cons c r ih =>
    have hc : c ≠ '\n' := fun hx => h (by rw [hx]; exact List.mem_cons_self _ _)
    simp only [List.cons_append]
    rw [splitNl_cons_ne c _ hc, ih (fun hx => h (List.mem_cons_of_mem c hx))]
    rw [consHead]

theorem splitNl_joinNl (ls : List (List Char)) (hnl : ∀ l ∈ ls, '\n' ∉ l)
    (hne : ls ≠ []) : splitNl (joinNl ls) = ls := by
  induction ls with
  | nil => exact (hne rfl).elim
  | cons l t ih =>
    cases t with
    | nil =>
      rw [joinNl]
      exact splitNl_single l (hnl l (List.mem_cons_self _ _))
    | cons x t2 =>
      rw [joinNl_cons_cons]
      rw [splitNl_append_nl l _ (hnl l (List.mem_cons_self _ _))]
      rw [ih (fun l2 hl2 => hnl l2 (List.mem_cons_of_mem l hl2)) (by simp)]

theorem noDSlash_joinNl (ls : List (List Char))
    (h : ∀ l ∈ ls, noDSlash l = true) : noDSlash (joinNl ls) = true := by
  induction ls with
  | nil => rfl
  | cons l t ih =>
    cases t with
    | nil =>
      rw [joinNl]
      exact h l (List.mem_cons_self _ _)
    | cons x t2 =>
      rw [joinNl_cons_cons]
      exact noDSlash_append_nl _ _ (h l (List.mem_cons_self _ _))
        (ih (fun l2 hl2 => h l2 (List.mem_cons_of_mem l hl2)))

theorem noDSlash_joinNl_elem (ls : List (List Char))
    (h : noDSlash (joinNl ls) = true) : ∀ l ∈ ls, noDSlash l = true := by
  induction ls with
  | nil => intro l hl; cases hl
  | cons l t ih =>
    cases t with
    | nil =>
      intro l2 hl2
      rw [joinNl] at h
      cases hl2 with
      | head => exact h
      | tail _ hx => cases hx
    | cons x t2 =>
      rw [joinNl_cons_cons] at h
      intro l2 hl2
      cases hl2 with
      | head => exact noDSlash_append_left _ _ h
      | tail _ hx =>
        exact ih (noDSlash_tail _ _ (noDSlash_append_right _ _ h)) l2 hx

theorem hasClose_joinNl_iff (ls : List (List Char)) :
    hasClose (joinNl ls) = true ↔ ∃ l, l ∈ ls ∧ hasClose l = true := by
  induction ls with
  | nil => simp [joinNl, hasClose]
  | cons l t ih =>
    cases t with
    | nil =>
      rw [joinNl]
      constructor
      · intro h
        exact ⟨l, List.mem_cons_self _ _, h⟩
      · rintro ⟨l2, hl2, hc⟩
        cases hl2 with
        | head => exact hc
        | tail _ hx => cases hx
    | cons x t2 =>
      rw [joinNl_cons_cons, hasClose_append_nl]
      simp only [Bool.or_eq_true, ih]
      constructor
      · rintro (h | ⟨l2, hl2, hc⟩)
        · exact ⟨l, List.mem_cons_self _ _, h⟩
        · exact ⟨l2, List.mem_cons_of_mem l hl2, hc⟩
      · rintro ⟨l2, hl2, hc⟩
        cases hl2 with
        | head => exact Or.inl hc
        | tail _ hx => exact Or.inr ⟨l2, hx, hc⟩

/-- Dropping lines preserves the no-closable-open property of the joined
text: surviving opens and closes keep their relative order, so a closable
open in the smaller text would be closable in the larger one. -/
theorem joinNl_sublist_OC {ls' ls : List (List Char)}
    (hsub : List.Sublist ls' ls)
    (H : noOpenClose (joinNl ls) = true) : noOpenClose (joinNl ls') = true := by
  induction hsub with
  | slnil => exact H
  | @cons l1 l2 a hsub ih =>
    apply ih
    cases l2 with
    | nil => rfl
    | cons x t =>
      rw [joinNl_cons_cons] at H
      exact noOpenClose_tail _ _ (noOpenClose_append_right _ _ H)
  | @cons₂ l1 l2 a hsub ih =>
    cases l1 with
    | nil =>
      rw [joinNl]
      cases l2 with
      | nil =>
        rw [joinNl] at H
        exact H
      | cons x t =>
        rw [joinNl_cons_cons] at H
        exact noOpenClose_append_left _ _ H
    | cons y t' =>
      cases l2 with
      | nil => cases hsub
      | cons x t =>
        rw [joinNl_cons_cons] at H
        rw [joinNl_cons_cons]
        have H2 : noOpenClose (joinNl (x :: t)) = true :=
          noOpenClose_tail _ _ (noOpenClose_append_right _ _ H)
        refine noOpenClose_replace_tail _ _ (ih H2) ?_ a H
        intro hc
        obtain ⟨l0, hl0, hcl0⟩ := (hasClose_joinNl_iff _).mp hc
        exact (hasClose_joinNl_iff _).mpr ⟨l0, hsub.subset hl0, hcl0⟩

theorem noDSlash_joinNonblank (y : List Char)
    (h : noDSlash y = true) : noDSlash (joinNonblank y) = true := by
  unfold joinNonblank
  apply noDSlash_joinNl
  intro l hl
  exact noDSlash_joinNl_elem (splitNl y)
    (by rw [joinNl_splitNl]; exact h) l (List.mem_of_mem_filter hl)

theorem noOpenClose_joinNonblank (y : List Char)
    (h : noOpenClose y = true) : noOpenClose (joinNonblank y) = true := by
  unfold joinNonblank
  exact joinNl_sublist_OC (List.filter_sublist _)
    (by rw [joinNl_splitNl]; exact h)

/-- Blank-line removal is idempotent: its output splits back into exactly
the kept lines, all of them non-blank. -/
theorem joinNonblank_idem (x : List Char) :
    joinNonblank (joinNonblank x) = joinNonblank x := by
  cases hk : (splitNl x).filter (fun l => !isBlank l) with
  | nil =>
    unfold joinNonblank
    rw [hk, joinNl, splitNl]
    simp [isBlank, joinNl]
  | cons h t =>
    unfold joinNonblank
    rw [hk]
    have hnl : ∀ l ∈ h :: t, '\n' ∉ l := by
      intro l hl
      have hl' : l ∈ (splitNl x).filter (fun l => !isBlank l) := by
        rw [hk]
        exact hl
      exact splitNl_no_nl x l (List.mem_of_mem_filter hl')
    rw [splitNl_joinNl (h :: t) hnl (by simp)]
    have hq : ∀ l ∈ h :: t, (!isBlank l) = true := by
      intro l hl
      have hl' : l ∈ (splitNl x).filter (fun l2 => !isBlank l2) := by
        rw [hk]
        exact hl
      exact @List.of_mem_filter _ (fun l2 => !isBlank l2) l (splitNl x) hl'
    rw [List.filter_eq_self.mpr hq]

/-- The line-comment scrubber's output contains no `//` at all: per line,
everything from the first `//` onward is gone. -/
theorem cutOneLine_noDSlash (l : List Char) :
    noDSlash (cutOneLine l) = true := by
  induction l using cutOneLine.induct with
  | case1 t =>
    rw [cutOneLine]
    rfl
  | case2 c rest hne ih =>
    rw [cutOneLine_cons_ne c rest hne]
    by_cases hc : c = '/'
    · subst hc
      cases rest with
      | nil =>
        rw [cutOneLine]
        rw [noDSlash_cons_ne '/' [] (fun t _ hx => by cases hx), noDSlash]
      | cons d r2 =>
        have hd : d ≠ '/' := fun hd => hne r2 rfl (by rw [hd])
        have hcut : cutOneLine (d :: r2) = d :: cutOneLine r2 :=
          cutOneLine_cons_ne d r2 (fun t h1 _ => hd h1)
        rw [hcut]
        rw [noDSlash_cons_ne '/' _ (fun t _ hx => by
          injection hx with hxa
          exact hd hxa)]
        rw [← hcut]
        exact ih
    · rw [noDSlash_cons_ne c _ (fun t h1 _ => hc h1)]
      exact ih
  | case3 =>
    rw [cutOneLine]
    rfl

theorem lineStep_noDSlash (s : List Char) : noDSlash (lineStep s) = true := by
  unfold lineStep
  apply noDSlash_joinNl
  intro l hl
  obtain ⟨l0, _, rfl⟩ := List.mem_map.mp hl
  exact cutOneLine_noDSlash l0

theorem lineStep_fix (x : List Char) (h : noDSlash x = true) : lineStep x = x := by
  unfold lineStep
  have hmap : (splitNl x).map cutOneLine = splitNl x := by
    calc (splitNl x).map cutOneLine
        = (splitNl x).map id :=
          List.map_congr_left (fun l hl => cutOneLine_fix l
            (noDSlash_joinNl_elem (splitNl x)
              (by rw [joinNl_splitNl]; exact h) l hl))
      _ = splitNl x := List.map_id _
  rw [hmap, joinNl_splitNl]

theorem jsCleanL_idem (l : List Char) : jsCleanL (jsCleanL l) = jsCleanL l := by
  obtain ⟨hndY, hocY⟩ := removeBlock_inv (lineStep l) (lineStep_noDSlash l)
  have hndO : noDSlash (jsCleanL l) = true := noDSlash_joinNonblank _ hndY
  have hocO : noOpenClose (jsCleanL l) = true := noOpenClose_joinNonblank _ hocY
  conv_lhs => rw [jsCleanL]
  rw [lineStep_fix _ hndO, removeBlock_fix _ hocO]
  conv_lhs => rw [jsCleanL]
  conv_rhs => rw [jsCleanL]
  exact joinNonblank_idem _

/-- C10: the JavaScript analyzer's cleaning is idempotent — its output
contains no `//` remnant, no closable `/* ... */` block and no blank
line, so a second application removes nothing. -/
theorem claim10_js_clean_idempotent (s : String) :
    jsCleanContent (jsCleanContent s) = jsCleanContent s := by
  unfold jsCleanContent
  congr 1
  show jsCleanL (jsCleanL s.data) = jsCleanL s.data
  exact jsCleanL_idem s.data

/-- C4: `ContentProcessor` fills the record's `hash` field with Python's
builtin `hash(cleaned_content)` — an integer salted by the per-process
hash key — so the same file processed under two salts yields records with
identical content but different `hash` values, contradicting a
fixed-length string digest determined only by the content. -/
theorem claim4_hash_field_depends_on_run_salt :
    ((CP.processFile envA defaultConfig {} pyFileA).1.map FileRecord.hash
      = some (.intHash 0)) ∧
    ((CP.processFile envB defaultConfig {} pyFileA).1.map FileRecord.hash
      = some (.intHash 1)) ∧
    ((CP.processFile envA defaultConfig {} pyFileA).1.map FileRecord.content
      = (CP.processFile envB defaultConfig {} pyFileA).1.map FileRecord.content) ∧
    HashVal.intHash 0 ≠ HashVal.intHash 1 := by
  refine ⟨by decide, by decide, by decide, by decide⟩

end CodeContext
